import Mathlib

/-!
# Model Registry & Resolution subsystem — verification development

Shallow embedding of the core of the `anthropic_models` service:

* the catalog reconciler (`api/usage/track.ts`, sync-cron handler):
  `parseModelType`, `getPricing`, `newestByType`, insert/deprecate/current-flag
  loops, and the run wrapper with its error path;
* the resolution engine (`api/model/[type].ts`): the priority cascade over
  overrides, A/B tests and the registry;
* the usage aggregator (`api/usage/track.ts`, POST handler): hourly-bucket
  upsert, registry health rollup, experiment rollup.

Database tables are modelled as Lean lists of records (schema from the
repository's `CREATE TABLE` statements); SQL `UPDATE ... WHERE` is a `List.map`
guarded on the row predicate, `ON CONFLICT` upsert is a keyed merge-or-append,
`ORDER BY x DESC LIMIT 1` is a fold selecting the row with maximal key
(keeping the earlier row on ties).  Timestamps are `Nat`, monetary values are
`Rat`.
-/

namespace Models

/-- ASCII lowercase of one character (model ids are ASCII, so this matches JS
`toLowerCase` on every input the handler sees). -/
def lowerChar (c : Char) : Char :=
  if c.isUpper then Char.ofNat (c.toNat + 32) else c

/-- ASCII lowercase of a string, as a character list. -/
def lowerStr (s : String) : List Char := s.toList.map lowerChar

/-- Contiguous-subsequence test on character lists. -/
def charsInclude (needle : List Char) : List Char → Bool
  | [] => needle.isEmpty
  | c :: rest => needle.isPrefixOf (c :: rest) || charsInclude needle rest

/-- Substring test (JS `String.prototype.includes`) against an
already-lowercased haystack. -/
def strIncludes (hay : List Char) (needle : String) : Bool :=
  charsInclude needle.toList hay

/-- `parseModelType` from the sync handler: derive the category of a model id
by case-insensitive substring match, in the fixed order haiku, sonnet, opus. -/
def parseModelType (modelId : String) : Option String :=
  let lower := lowerStr modelId
  if strIncludes lower "haiku" then some "haiku"
  else if strIncludes lower "sonnet" then some "sonnet"
  else if strIncludes lower "opus" then some "opus"
  else none

/-- The hardcoded `PRICING_MAP` (input, output cost per million tokens), in
source order. -/
def PRICING_MAP : List (String × Rat × Rat) :=
  [("claude-haiku-4-5", (1, 5)),
   ("claude-haiku-3-5", (4/5, 4)),
   ("claude-haiku-3", (1/4, 5/4)),
   ("claude-sonnet-4-5", (3, 15)),
   ("claude-sonnet-4", (3, 15)),
   ("claude-sonnet-3-7", (3, 15)),
   ("claude-sonnet-3-5", (3, 15)),
   ("claude-opus-4-1", (15, 75)),
   ("claude-opus-4", (15, 75))]

/-- JS `modelId.startsWith(key)`, as a character-list prefix test. -/
def strStartsWith (s key : String) : Bool :=
  key.toList.isPrefixOf s.toList

/-- `getPricing`: exact key match first, then the first map entry whose key is
a prefix of the model id, else the default Sonnet tier. -/
def getPricing (modelId : String) : Rat × Rat :=
  match PRICING_MAP.lookup modelId with
  | some p => p
  | none =>
    match PRICING_MAP.find? (fun e => strStartsWith modelId e.fst) with
    | some e => e.snd
    | none => (3, 15)

/-- An item of the upstream catalog listing (`/v1/models`). -/
structure ApiModel where
  id : String
  display_name : String
  created_at : Nat
deriving Repr, DecidableEq

/-- A row of `anthropic_models`. -/
structure DbModel where
  model_id : String
  model_type : String
  model_alias : Option String
  display_name : Option String
  is_current : Bool
  is_working : Bool
  is_deprecated : Bool
  deprecation_date : Option Nat
  cost_per_million_input_tokens : Rat
  cost_per_million_output_tokens : Rat
  total_api_calls : Nat
  total_input_tokens : Nat
  total_output_tokens : Nat
  total_cost_usd : Rat
  last_verified : Option Nat
  error_count : Nat
  last_error : Option String
  last_error_at : Option Nat
  first_seen : Option Nat
  last_used : Option Nat
deriving Repr, DecidableEq

/-- A fresh registry row, with every column the reconciler's `INSERT` does not
mention at its schema default. -/
def freshModel (m : ApiModel) (modelType : String) (now : Nat) : DbModel :=
  { model_id := m.id
    model_type := modelType
    model_alias := none
    display_name := some m.display_name
    is_current := false
    is_working := true
    is_deprecated := false
    deprecation_date := none
    cost_per_million_input_tokens := (getPricing m.id).fst
    cost_per_million_output_tokens := (getPricing m.id).snd
    total_api_calls := 0
    total_input_tokens := 0
    total_output_tokens := 0
    total_cost_usd := 0
    last_verified := some now
    error_count := 0
    last_error := none
    last_error_at := none
    first_seen := some m.created_at
    last_used := none }

/-- `SELECT ... ORDER BY key DESC LIMIT 1` over a list: keep the row with the
strictly greatest key, the earlier row on ties. -/
def latestStep (f : α → Nat) (acc : Option α) (x : α) : Option α :=
  match acc with
  | none => some x
  | some c => if f x > f c then some x else acc

/-- Fold `latestStep` over a whole list. -/
def latestBy (f : α → Nat) (l : List α) : Option α :=
  l.foldl (latestStep f) none

/-- The value stored per category while scanning for the newest model. -/
structure Newest where
  id : String
  created_at : Nat
deriving Repr, DecidableEq

/-- Store a key in a JS object modelled as an association list: replace the
value in place if the key exists, append otherwise. -/
def setAssoc : List (String × Newest) → String → Newest → List (String × Newest)
  | [], t, x => [(t, x)]
  | (k, v) :: rest, t, x =>
    if k = t then (k, x) :: rest else (k, v) :: setAssoc rest t x

/-- One iteration of the `newestByType` scan in the sync handler: skip items
with no parseable category, record an item when its category is unseen or its
creation time is strictly greater than the stored one. -/
def newestStep (m : List (String × Newest)) (a : ApiModel) : List (String × Newest) :=
  match parseModelType a.id with
  | none => m
  | some t =>
    match m.lookup t with
    | none => setAssoc m t ⟨a.id, a.created_at⟩
    | some cur =>
      if a.created_at > cur.created_at then setAssoc m t ⟨a.id, a.created_at⟩ else m

/-- `newestByType`: newest upstream model per category, folded over the catalog
in listing order. -/
def newestByType (api : List ApiModel) : List (String × Newest) :=
  api.foldl newestStep []

/-- Lexicographic order on character lists (by code point). -/
def charListLt : List Char → List Char → Bool
  | [], [] => false
  | [], _ :: _ => true
  | _ :: _, [] => false
  | a :: as, b :: bs =>
    if a.toNat < b.toNat then true
    else if b.toNat < a.toNat then false
    else charListLt as bs

/-- Lexicographic order on strings. -/
def strLtB (a b : String) : Bool := charListLt a.toList b.toList

/-- Modelled from the spec: "for each category, among all upstream items
resolvable to that category, select the item with the maximum creation time;
break ties by choosing the lexicographically greatest id".  Used only to
compare the source's selection against the specified one. -/
def specBetter (a b : ApiModel) : Bool :=
  a.created_at > b.created_at || (a.created_at = b.created_at && strLtB b.id a.id)

/-- Modelled from the spec: the specified current-model arbitration (maximal
creation time, lexicographically greatest id on ties). -/
def specNewest (api : List ApiModel) (t : String) : Option ApiModel :=
  (api.filter (fun m => parseModelType m.id = some t)).foldl
    (fun acc x =>
      match acc with
      | none => some x
      | some c => if specBetter x c then some x else acc)
    none

/-- An entry of the structured change list of a reconciliation run. -/
inductive Change where
  | model_added (model_id : String) (display_name : String) (model_type : String)
  | model_deprecated (model_id : String)
  | current_model_changed (model_id : String) (model_type : String) (previous : Option String)
deriving Repr, DecidableEq

/-- The JSON payload a sync run answers with. -/
structure SyncResult where
  success : Bool
  modelsFound : Nat
  modelsAdded : Nat
  modelsUpdated : Nat
  modelsDeprecated : Nat
  changes : List Change
  errorMessage : Option String
deriving Repr, DecidableEq

/-- A row of `sync_logs`. -/
structure SyncLog where
  models_found : Nat
  models_added : Nat
  models_updated : Nat
  models_deprecated : Nat
  success : Bool
  error_message : Option String
  duration_ms : Nat
  changes : Option (List Change)
  triggered_by : String
deriving Repr, DecidableEq

/-- `UPDATE ... SET f ... WHERE p`: rewrite exactly the rows satisfying `p`. -/
def mapIf (p : DbModel → Bool) (f : DbModel → DbModel) (db : List DbModel) : List DbModel :=
  db.map (fun m => if p m then f m else m)

/-- Registry state together with a counter and change list accumulated by one
of the reconciler's write loops. -/
structure LoopOut where
  state : List DbModel
  count : Nat
  changes : List Change
deriving Repr, DecidableEq

/-- The INSERT loop over `newModels`: items with no parseable category are
skipped (warned, not failed); the rest are appended to the registry with
`is_current = false`, `is_working = true`.  Returns the new registry, the
`modelsAdded` count and the pushed changes. -/
def insertLoop (now : Nat) : List DbModel → List ApiModel → LoopOut
  | db, [] => ⟨db, 0, []⟩
  | db, m :: rest =>
    match parseModelType m.id with
    | none => insertLoop now db rest
    | some t =>
      let out := insertLoop now (db ++ [freshModel m t now]) rest
      ⟨out.state, out.count + 1, Change.model_added m.id m.display_name t :: out.changes⟩

/-- The SET clause of the deprecation UPDATE. -/
def depTransform (m : DbModel) (now : Nat) : DbModel :=
  { m with is_deprecated := true, deprecation_date := some now, is_current := false }

/-- `UPDATE ... WHERE model_id = id` marking one model deprecated. -/
def deprecateOne (db : List DbModel) (id : String) (now : Nat) : List DbModel :=
  mapIf (fun m => m.model_id = id) (fun m => depTransform m now) db

/-- The deprecation loop over the ids found in the registry but not upstream. -/
def deprecateLoop (now : Nat) : List DbModel → List String → LoopOut
  | db, [] => ⟨db, 0, []⟩
  | db, id :: rest =>
    let out := deprecateLoop now (deprecateOne db id now) rest
    ⟨out.state, out.count + 1, Change.model_deprecated id :: out.changes⟩

/-- The SET clause of the current-flag clearing UPDATE. -/
def clearTransform (m : DbModel) : DbModel := { m with is_current := false }

/-- `UPDATE anthropic_models SET is_current = false WHERE model_type = t`. -/
def clearCurrent (db : List DbModel) (t : String) : List DbModel :=
  mapIf (fun m => m.model_type = t) clearTransform db

/-- The SET clause of the current-flag setting UPDATE. -/
def setTransform (m : DbModel) (now : Nat) : DbModel :=
  { m with is_current := true, last_verified := some now }

/-- `UPDATE anthropic_models SET is_current = true, last_verified = NOW()
WHERE model_id = id`. -/
def setCurrent (db : List DbModel) (id : String) (now : Nat) : List DbModel :=
  mapIf (fun m => m.model_id = id) (fun m => setTransform m now) db

/-- The skip condition of the current-flag loop: the pre-run snapshot already
lists the newest upstream id as the category's current model. -/
def flagSkip (snapshot : List DbModel) (t : String) (newest : Newest) : Bool :=
  match snapshot.find? (fun m => m.model_type = t && m.is_current) with
  | some cm => cm.model_id = newest.id
  | none => false

/-- The body of the loop: when the snapshot's current model for the category
is absent or differs from the newest upstream id, clear the flag on the whole
category and set it on the newest id, recording the change with the previous
current id. -/
def currentFlagLoop (snapshot : List DbModel) (now : Nat) :
    List DbModel → List (String × Newest) → LoopOut
  | db, [] => ⟨db, 0, []⟩
  | db, (t, newest) :: rest =>
    let currentModel := snapshot.find? (fun m => m.model_type = t && m.is_current)
    if flagSkip snapshot t newest then
      currentFlagLoop snapshot now db rest
    else
      let db' := setCurrent (clearCurrent db t) newest.id now
      let out := currentFlagLoop snapshot now db' rest
      ⟨out.state, out.count + 1,
        Change.current_model_changed newest.id t
          (currentModel.map (fun cm => cm.model_id)) :: out.changes⟩

/-- The registry snapshot query `SELECT ... FROM anthropic_models ORDER BY
model_id`. -/
def sortById (db : List DbModel) : List DbModel :=
  db.insertionSort (fun a b => a.model_id ≤ b.model_id)

/-- Outcome of one successful reconciliation pass. -/
structure RunOut where
  state : List DbModel
  added : Nat
  deprecated : Nat
  updated : Nat
  changes : List Change
deriving Repr, DecidableEq

/-- One successful reconciliation pass (sync-cron handler steps 3–6), given
the fully paginated upstream catalog: diff, insert, deprecate, re-arbitrate
current flags.  Returns the new registry and the run's counters and changes. -/
def syncRun (db : List DbModel) (allModels : List ApiModel) (now : Nat) : RunOut :=
  let dbModels := sortById db
  let dbIds := dbModels.map (fun m => m.model_id)
  let apiIds := allModels.map (fun m => m.id)
  let newModels := allModels.filter (fun m => !(dbIds.contains m.id))
  let deprecatedModels :=
    dbModels.filter (fun m => !(apiIds.contains m.model_id) && !m.is_deprecated)
  let ins := insertLoop now db newModels
  let dep := deprecateLoop now ins.state (deprecatedModels.map (fun m => m.model_id))
  let upd := currentFlagLoop dbModels now dep.state (newestByType allModels)
  ⟨upd.state, ins.count, dep.count, upd.count,
    ins.changes ++ dep.changes ++ upd.changes⟩

/-- Durable state the sync handler touches: the registry and the append-only
log table. -/
structure SyncState where
  models : List DbModel
  logs : List SyncLog
deriving Repr, DecidableEq

/-- The sync-cron handler after authentication: on a fetch failure (network
error, bad status, missing API key) the registry is untouched and a failed log
row plus a failure payload are produced; on success the run executes and a
success log row is appended.  The handler never throws: both branches return a
normal payload carrying the success flag. -/
def syncHandler (st : SyncState) (fetched : Except String (List ApiModel))
    (now durationMs : Nat) : SyncState × SyncResult :=
  match fetched with
  | Except.error msg =>
    ({ models := st.models
       logs := st.logs ++
         [{ models_found := 0, models_added := 0, models_updated := 0,
            models_deprecated := 0, success := false, error_message := some msg,
            duration_ms := durationMs, changes := none, triggered_by := "cron" }] },
     { success := false, modelsFound := 0, modelsAdded := 0, modelsUpdated := 0,
       modelsDeprecated := 0, changes := [], errorMessage := some msg })
  | Except.ok allModels =>
    let run := syncRun st.models allModels now
    ({ models := run.state
       logs := st.logs ++
         [{ models_found := allModels.length, models_added := run.added,
            models_updated := run.updated, models_deprecated := run.deprecated,
            success := true, error_message := none, duration_ms := durationMs,
            changes := some run.changes, triggered_by := "cron" }] },
     { success := true, modelsFound := allModels.length, modelsAdded := run.added,
       modelsUpdated := run.updated, modelsDeprecated := run.deprecated,
       changes := run.changes, errorMessage := none })

/-- A sequence of reconciliation runs executed one at a time. -/
def applyRuns (st : SyncState) :
    List (Except String (List ApiModel) × Nat × Nat) → SyncState
  | [] => st
  | r :: rest => applyRuns (syncHandler st r.fst r.snd.fst r.snd.snd).fst rest

/-- A row of `model_overrides`. -/
structure Override where
  project_name : Option String
  model_type : String
  override_model_id : String
  reason : String
  expires_at : Option Nat
  created_by : String
  created_at : Nat
deriving Repr, DecidableEq

/-- A row of `ab_tests`.  Note: the table has no category column. -/
structure AbTest where
  id : Nat
  test_name : String
  model_a : String
  model_b : String
  traffic_split_percent : Int
  project_names : Option (List String)
  user_roles : Option (List String)
  status : String
  model_a_calls : Nat
  model_b_calls : Nat
  model_a_avg_response_ms : Option Nat
  model_b_avg_response_ms : Option Nat
  model_a_cost_usd : Rat
  model_b_cost_usd : Rat
  created_at : Nat
deriving Repr, DecidableEq

/-- The store state the resolution handler reads. -/
structure ResolveState where
  models : List DbModel
  overrides : List Override
  tests : List AbTest
deriving Repr, DecidableEq

/-- The possible responses of `GET /api/model/:type`, one constructor per
return site of the handler. -/
inductive ResolveResp where
  | methodNotAllowed
  | unauthorized
  | invalidType
  | projectOverride (model_id : String) (model_type : String) (project : String)
  | globalOverride (model_id : String) (model_type : String)
  | abTest (model_id : String) (model_type : String) (test_id : Nat)
      (test_name : String) (test_variant : String)
  | current (model_id : String) (model_type : String)
      (fallback_model : Option String) (last_verified : Option Nat)
  | fallback (model_id : String) (model_type : String) (last_verified : Option Nat)
  | emergency (model_id : String) (model_type : String)
deriving Repr, DecidableEq

/-- HTTP status of each response. -/
def ResolveResp.statusCode : ResolveResp → Nat
  | .methodNotAllowed => 405
  | .unauthorized => 401
  | .invalidType => 400
  | _ => 200

/-- The `source` field of each 200 response. -/
def ResolveResp.source : ResolveResp → Option String
  | .projectOverride _ _ _ => some "project_override"
  | .globalOverride _ _ => some "global_override"
  | .abTest _ _ _ _ _ => some "ab_test"
  | .current _ _ _ _ => some "current"
  | .fallback _ _ _ => some "fallback"
  | .emergency _ _ => some "emergency"
  | _ => none

/-- The valid model types of the route. -/
def validTypes : List String := ["sonnet", "haiku", "opus"]

/-- The hardcoded emergency mapping (PRIORITY 6 and the catch block). -/
def emergencyFallback : String → Option String
  | "sonnet" => some "claude-sonnet-4-5"
  | "haiku" => some "claude-haiku-4-5"
  | "opus" => some "claude-opus-4-1"
  | _ => none

/-- `expires_at IS NULL OR expires_at > NOW()`. -/
def notExpired (o : Override) (now : Nat) : Bool :=
  match o.expires_at with
  | none => true
  | some t => t > now

/-- PRIORITY 1 query: latest non-expired override scoped to this project and
type. -/
def projectOverrideQ (ovs : List Override) (p ty : String) (now : Nat) : Option Override :=
  latestBy (fun o => o.created_at)
    (ovs.filter (fun o => o.project_name = some p && o.model_type = ty && notExpired o now))

/-- PRIORITY 2 query: latest non-expired global override for this type. -/
def globalOverrideQ (ovs : List Override) (ty : String) (now : Nat) : Option Override :=
  latestBy (fun o => o.created_at)
    (ovs.filter (fun o => o.project_name = none && o.model_type = ty && notExpired o now))

/-- `userRole || 'guest'`: an absent or empty role parameter falls back to the
literal role `guest` (JS truthiness). -/
def roleOrGuest : Option String → String
  | none => "guest"
  | some r => if r = "" then "guest" else r

/-- The WHERE clause of the PRIORITY 3 query: running status, project targeting
(`project_names IS NULL OR project = ANY(project_names)`) and role targeting
likewise.  No category condition exists. -/
def testMatches (p role : String) (t : AbTest) : Bool :=
  t.status = "running"
    && (match t.project_names with
        | none => true
        | some ps => ps.contains p)
    && (match t.user_roles with
        | none => true
        | some rs => rs.contains role)

/-- PRIORITY 3 query: latest matching running test. -/
def activeTestQ (tests : List AbTest) (p role : String) : Option AbTest :=
  latestBy (fun t => t.created_at) (tests.filter (testMatches p role))

/-- `ORDER BY last_verified DESC NULLS LAST LIMIT 1`: maximal optional key,
rows with a key before rows without, earlier row on ties. -/
def latestByOpt (f : α → Option Nat) (l : List α) : Option α :=
  l.foldl
    (fun acc x =>
      match acc with
      | none => some x
      | some c =>
        match f x, f c with
        | some a, some b => if a > b then some x else acc
        | some _, none => some x
        | none, _ => acc)
    none

/-- PRIORITY 4 query: the category's current, non-deprecated model. -/
def currentModelQ (models : List DbModel) (ty : String) : Option DbModel :=
  latestByOpt (fun m => m.last_verified)
    (models.filter (fun m => m.model_type = ty && m.is_current && !m.is_deprecated))

/-- PRIORITY 5 query: the category's most recently verified working,
non-deprecated model. -/
def workingModelQ (models : List DbModel) (ty : String) : Option DbModel :=
  latestByOpt (fun m => m.last_verified)
    (models.filter (fun m => m.model_type = ty && m.is_working && !m.is_deprecated))

/-- The priority cascade of `GET /api/model/:type` after method and API-key
checks: type validation, then overrides, A/B test, current model, working
fallback, emergency mapping.  `rnd` is the one uniform draw
`Math.random() * 100`. -/
def resolve (st : ResolveState) (ty : String) (project userRole : Option String)
    (now : Nat) (rnd : Rat) : ResolveResp :=
  if !(validTypes.contains ty) then .invalidType
  else
    let p1 : Option ResolveResp :=
      match project with
      | none => none
      | some p =>
        (projectOverrideQ st.overrides p ty now).map
          (fun o => .projectOverride o.override_model_id ty p)
    match p1 with
    | some r => r
    | none =>
      match globalOverrideQ st.overrides ty now with
      | some o => .globalOverride o.override_model_id ty
      | none =>
        let p3 : Option ResolveResp :=
          match project with
          | none => none
          | some p =>
            (activeTestQ st.tests p (roleOrGuest userRole)).map
              (fun t =>
                let useModelA := rnd < (t.traffic_split_percent : Rat)
                .abTest (if useModelA then t.model_a else t.model_b) ty t.id
                  t.test_name (if useModelA then "model_a" else "model_b"))
        match p3 with
        | some r => r
        | none =>
          match currentModelQ st.models ty with
          | some cm =>
            .current cm.model_id ty
              ((workingModelQ st.models ty).map (fun m => m.model_id)) cm.last_verified
          | none =>
            match workingModelQ st.models ty with
            | some w => .fallback w.model_id ty w.last_verified
            | none => .emergency ((emergencyFallback ty).getD "") ty

/-- The full handler: method check, API-key check, then the cascade. -/
def modelHandler (method : String) (apiKeyOk : Bool) (st : ResolveState)
    (ty : String) (project userRole : Option String) (now : Nat) (rnd : Rat) :
    ResolveResp :=
  if method ≠ "GET" then .methodNotAllowed
  else if !apiKeyOk then .unauthorized
  else resolve st ty project userRole now rnd

/-- The catch block of the handler: any thrown error is answered with the
emergency mapping (defaulting to the sonnet id when the type itself is
unparseable) and HTTP 200. -/
def catchResponse (ty : String) : ResolveResp :=
  .emergency ((emergencyFallback ty).getD "claude-sonnet-4-5") ty

/-- A telemetry event (request body of `POST /api/usage/track`).  The numeric
token fields are always present here, so the source's `=== undefined` checks
can only fire through the falsy-string checks on `projectName`/`modelId`,
modelled as empty strings. -/
structure TrackReq where
  projectName : String
  endpoint : Option String
  modelId : String
  inputTokens : Nat
  outputTokens : Nat
  responseTimeMs : Option Nat
  success : Bool
  error : Option String
  testId : Option Nat
  testVariant : Option String
deriving Repr, DecidableEq

/-- A row of `model_usage` (hourly bucket). -/
structure UsageRow where
  model_id : String
  project_name : String
  endpoint : Option String
  api_calls : Nat
  input_tokens : Nat
  output_tokens : Nat
  total_cost_usd : Rat
  avg_response_time_ms : Option Nat
  min_response_time_ms : Option Nat
  max_response_time_ms : Option Nat
  error_count : Nat
  last_error : Option String
  hour : Nat
deriving Repr, DecidableEq

/-- Store state the tracking handler touches. -/
structure TrackState where
  models : List DbModel
  usage : List UsageRow
  tests : List AbTest
deriving Repr, DecidableEq

/-- Responses of `POST /api/usage/track`, one constructor per return site. -/
inductive TrackResp where
  | methodNotAllowed
  | unauthorized
  | missingFields
  | unknownModel
  | tracked (project model : String) (cost : Rat) (tokens : Nat)
deriving Repr, DecidableEq

/-- HTTP status of each tracking response.  `unknownModel` is the 200 `ok`
payload carrying the unknown-model warning. -/
def TrackResp.statusCode : TrackResp → Nat
  | .methodNotAllowed => 405
  | .unauthorized => 401
  | .missingFields => 400
  | _ => 200

/-- JS `x || null` on an optional string: empty strings collapse to null. -/
def orNullStr : Option String → Option String
  | some s => if s = "" then none else some s
  | none => none

/-- JS `x || null` on an optional number: zero collapses to null. -/
def orNullNat : Option Nat → Option Nat
  | some n => if n = 0 then none else some n
  | none => none

/-- `toFixed(4)` on a nonnegative amount: round to four decimal places. -/
def toFixed4 (q : Rat) : Rat :=
  ((q * 10000 + 1/2).floor : Rat) / 10000

/-- The conflict key of `model_usage`: `(project_name, model_id, hour)`. -/
def bucketKeyMatches (r : UsageRow) (project modelId : String) (hour : Nat) : Bool :=
  r.project_name = project && r.model_id = modelId && r.hour = hour

/-- The VALUES row of the hourly-bucket INSERT. -/
def freshUsageRow (req : TrackReq) (cost4 : Rat) (hour : Nat) : UsageRow :=
  { model_id := req.modelId
    project_name := req.projectName
    endpoint := orNullStr req.endpoint
    api_calls := 1
    input_tokens := req.inputTokens
    output_tokens := req.outputTokens
    total_cost_usd := cost4
    avg_response_time_ms := orNullNat req.responseTimeMs
    min_response_time_ms := orNullNat req.responseTimeMs
    max_response_time_ms := orNullNat req.responseTimeMs
    error_count := if req.success then 0 else 1
    last_error := orNullStr req.error
    hour := hour }

/-- The DO UPDATE arm of the hourly-bucket upsert.  All right-hand sides read
the pre-update row; the running mean uses integer division as the `INT`
column does. -/
def mergeUsageRow (r : UsageRow) (req : TrackReq) (cost4 : Rat) : UsageRow :=
  { r with
    api_calls := r.api_calls + 1
    input_tokens := r.input_tokens + req.inputTokens
    output_tokens := r.output_tokens + req.outputTokens
    total_cost_usd := r.total_cost_usd + cost4
    avg_response_time_ms :=
      match req.responseTimeMs with
      | none => r.avg_response_time_ms
      | some rt =>
        r.avg_response_time_ms.map (fun a => (a * r.api_calls + rt) / (r.api_calls + 1))
    min_response_time_ms :=
      match req.responseTimeMs with
      | none => r.min_response_time_ms
      | some rt => some (min (r.min_response_time_ms.getD rt) rt)
    max_response_time_ms :=
      match req.responseTimeMs with
      | none => r.max_response_time_ms
      | some rt => some (max (r.max_response_time_ms.getD rt) rt)
    error_count := r.error_count + (if req.success then 0 else 1)
    last_error :=
      match req.error with
      | some e => some e
      | none => r.last_error }

/-- `INSERT ... ON CONFLICT (project_name, model_id, hour) DO UPDATE`. -/
def upsertUsage (usage : List UsageRow) (req : TrackReq) (cost4 : Rat) (hour : Nat) :
    List UsageRow :=
  if usage.any (fun r => bucketKeyMatches r req.projectName req.modelId hour) then
    usage.map (fun r =>
      if bucketKeyMatches r req.projectName req.modelId hour then
        mergeUsageRow r req cost4
      else r)
  else usage ++ [freshUsageRow req cost4 hour]

/-- Registry rollup on a successful event: lifetime counters, last-used stamp,
streak reset, `is_working` forced true. -/
def registrySuccess (m : DbModel) (req : TrackReq) (cost4 : Rat) (now : Nat) : DbModel :=
  { m with
    total_api_calls := m.total_api_calls + 1
    total_input_tokens := m.total_input_tokens + req.inputTokens
    total_output_tokens := m.total_output_tokens + req.outputTokens
    total_cost_usd := m.total_cost_usd + cost4
    last_used := some now
    error_count := 0
    is_working := true }

/-- Registry rollup on a failed event: streak increment, error text and stamp,
`is_working` cleared once the incremented streak exceeds 10. -/
def registryFailure (m : DbModel) (req : TrackReq) (now : Nat) : DbModel :=
  { m with
    error_count := m.error_count + 1
    last_error := some (match req.error with | some e => if e = "" then "Unknown error" else e | none => "Unknown error")
    last_error_at := some now
    is_working := if m.error_count + 1 > 10 then false else m.is_working }

/-- JS truthiness of `testId && testVariant`. -/
def testRefTruthy (req : TrackReq) : Bool :=
  (match req.testId with | some i => i ≠ 0 | none => false)
    && (match req.testVariant with | some v => v ≠ "" | none => false)

/-- Experiment rollup: `testVariant === 'model_a'` selects the A columns, any
other variant string the B columns; right-hand sides read the pre-update row
and the mean coalesces a NULL average to 0. -/
def abTestRollup (t : AbTest) (isA : Bool) (cost4 : Rat) (rt : Option Nat) : AbTest :=
  if isA then
    { t with
      model_a_calls := t.model_a_calls + 1
      model_a_cost_usd := t.model_a_cost_usd + cost4
      model_a_avg_response_ms :=
        match rt with
        | none => t.model_a_avg_response_ms
        | some r => some ((t.model_a_avg_response_ms.getD 0 * t.model_a_calls + r) / (t.model_a_calls + 1)) }
  else
    { t with
      model_b_calls := t.model_b_calls + 1
      model_b_cost_usd := t.model_b_cost_usd + cost4
      model_b_avg_response_ms :=
        match rt with
        | none => t.model_b_avg_response_ms
        | some r => some ((t.model_b_avg_response_ms.getD 0 * t.model_b_calls + r) / (t.model_b_calls + 1)) }

/-- The body of `POST /api/usage/track` after method and API-key checks:
validation, pricing lookup (early `ok`+warning return when the model id is
unknown, before any write), hourly-bucket upsert, registry rollup, experiment
rollup. -/
def track (st : TrackState) (req : TrackReq) (hour now : Nat) :
    TrackState × TrackResp :=
  if req.projectName = "" || req.modelId = "" then (st, .missingFields)
  else
    match st.models.find? (fun m => m.model_id = req.modelId) with
    | none => (st, .unknownModel)
    | some model =>
      let totalCost :=
        (req.inputTokens : Rat) / 1000000 * model.cost_per_million_input_tokens
          + (req.outputTokens : Rat) / 1000000 * model.cost_per_million_output_tokens
      let cost4 := toFixed4 totalCost
      let usage' := upsertUsage st.usage req cost4 hour
      let models' :=
        if req.success then
          mapIf (fun m => m.model_id = req.modelId)
            (fun m => registrySuccess m req cost4 now) st.models
        else
          mapIf (fun m => m.model_id = req.modelId)
            (fun m => registryFailure m req now) st.models
      let tests' :=
        if testRefTruthy req then
          st.tests.map (fun t =>
            if t.id = req.testId.getD 0 then
              abTestRollup t (req.testVariant = some "model_a") cost4 req.responseTimeMs
            else t)
        else st.tests
      (⟨models', usage', tests'⟩,
        .tracked req.projectName req.modelId totalCost (req.inputTokens + req.outputTokens))

/-- The full tracking handler: method check, API-key check, then the body. -/
def trackHandler (method : String) (apiKeyOk : Bool) (st : TrackState)
    (req : TrackReq) (hour now : Nat) : TrackState × TrackResp :=
  if method ≠ "POST" then (st, .methodNotAllowed)
  else if !apiKeyOk then (st, .unauthorized)
  else track st req hour now

/-- The mapping from an upstream item to the value stored in `newestByType`. -/
def toNewest (a : ApiModel) : Newest := ⟨a.id, a.created_at⟩

/-- Two upstream haiku items sharing one creation time, listed with the
lexicographically smaller id first. -/
def apiTie : List ApiModel :=
  [⟨"claude-haiku-aaa", "Haiku AAA", 100⟩, ⟨"claude-haiku-bbb", "Haiku BBB", 100⟩]

/-- A running experiment whose role list is `["guest", "admin"]`. -/
def guestTest : AbTest :=
  ⟨1, "guest-exp", "claude-sonnet-4-5", "claude-sonnet-4", 50, none,
    some ["guest", "admin"], "running", 0, 0, none, none, 0, 0, 500⟩

/-- A registry row for the current sonnet model, as the reconciler would
insert it (and then mark current). -/
def sonnetRow : DbModel :=
  { freshModel ⟨"claude-sonnet-4-5-20250929", "Claude Sonnet 4.5", 10⟩ "sonnet" 20 with
      is_current := true }

/-- Store state holding one known model and no usage rows. -/
def knownOnlyState : TrackState := ⟨[sonnetRow], [], []⟩

/-- A well-formed telemetry event citing a model id absent from the registry. -/
def unknownModelReq : TrackReq :=
  ⟨"ai", some "/api/chat", "mystery-model-9", 1000, 200, some 350, true, none,
    none, none⟩

/-- An expired project-scoped override (created later but already expired). -/
def overExpired : Override :=
  ⟨some "ai", "sonnet", "claude-sonnet-3-5", "expired pin", some 900, "cam", 200⟩

/-- The eligible project-scoped override for project `ai`. -/
def overProj : Override :=
  ⟨some "ai", "sonnet", "claude-sonnet-4", "pin for ai", some 2000, "cam", 150⟩

/-- An older eligible project-scoped override, outranked by creation time. -/
def overProjOld : Override :=
  ⟨some "ai", "sonnet", "claude-sonnet-3-7", "older pin", none, "cam", 100⟩

/-- An eligible global override for the same category. -/
def overGlob : Override :=
  ⟨none, "sonnet", "claude-sonnet-3-5", "global pin", none, "cam", 120⟩

/-- Store state with both override scopes populated. -/
def overrideState : ResolveState :=
  ⟨[], [overExpired, overProjOld, overProj, overGlob], []⟩

/-- A running experiment pairing two haiku models, unrestricted targeting. -/
def haikuPairTest : AbTest :=
  ⟨7, "haiku-pair", "claude-haiku-4-5", "claude-haiku-3", 100, none, none,
    "running", 0, 0, none, none, 0, 0, 10⟩

/-- Store state with a current sonnet model and the haiku experiment. -/
def c4State : ResolveState := ⟨[sonnetRow], [], [haikuPairTest]⟩

/-- One step of the consecutive-failure streak: a success resets it, a failure
increments it. -/
def streakStep (s : Nat) (ok : Bool) : Nat := if ok then 0 else s + 1

/-- The consecutive-failure streak left by a sequence of success flags. -/
def failStreak (flags : List Bool) : Nat := flags.foldl streakStep 0

/-- A sequence of tracking calls, each with its own hour bucket and time. -/
def processEvents (st : TrackState) : List (TrackReq × Nat × Nat) → TrackState
  | [] => st
  | e :: rest => processEvents (track st e.fst e.snd.fst e.snd.snd).fst rest

/-- Eleven consecutive failure events for the known sonnet model. -/
def failEvt : TrackReq :=
  ⟨"ai", none, "claude-sonnet-4-5-20250929", 10, 5, none, false, some "boom",
    none, none⟩

/-- Eleven consecutive failures, each in its own hour. -/
def elevenFailures : List (TrackReq × Nat × Nat) :=
  List.replicate 11 (failEvt, 100, 200)

/-- The model ids of a registry state. -/
def idsOf (db : List DbModel) : List String := db.map (fun m => m.model_id)

/-- The registry rows of one category carrying the current flag. -/
def currents (t : String) (db : List DbModel) : List DbModel :=
  db.filter (fun m => m.model_type = t && m.is_current)

/-- Every row's stored category agrees with the category parsed from its id —
an invariant of all reconciler-created rows, since the INSERT derives
`model_type` from `parseModelType(model_id)`. -/
def typeConsistent (db : List DbModel) : Prop :=
  ∀ m ∈ db, parseModelType m.model_id = some m.model_type

/-- Registry well-formedness: globally unique model ids (the schema's UNIQUE
constraint) and category/id consistency. -/
def wfState (db : List DbModel) : Prop :=
  (idsOf db).Nodup ∧ typeConsistent db

/-- The invariant of C1: at most one current record per category. -/
def invAtMostOne (db : List DbModel) : Prop :=
  ∀ t, (currents t db).length ≤ 1

/-- The rows appended by the INSERT loop, as a pure function of the new
items. -/
def newRecords (now : Nat) : List ApiModel → List DbModel
  | [] => []
  | m :: rest =>
    match parseModelType m.id with
    | none => newRecords now rest
    | some t => freshModel m t now :: newRecords now rest

/-- A small upstream snapshot: two sonnet models, newest first. -/
def demoApi : List ApiModel :=
  [⟨"claude-sonnet-4-5", "Sonnet 4.5", 200⟩, ⟨"claude-sonnet-4", "Sonnet 4", 100⟩]

/-!
## Lemmas and claim theorems
-/

theorem foldl_latestStep_spec (f : α → Nat) (l : List α) :
    ∀ (acc : Option α) (x : α),
      l.foldl (latestStep f) acc = some x →
      (acc = some x ∨ x ∈ l) ∧ (∀ y ∈ l, f y ≤ f x) ∧ (∀ c, acc = some c → f c ≤ f x) := by
  induction l with
  | nil =>
    intro acc x h
    refine ⟨Or.inl h, by simp, fun c hc => ?_⟩
    rw [hc] at h
    cases h
    exact le_refl _
  | cons a l ih =>
    intro acc x h
    rw [List.foldl_cons] at h
    obtain ⟨h1, h2, h3⟩ := ih (latestStep f acc a) x h
    have hstep : ∀ c, latestStep f acc a = some c → c = a ∨ acc = some c := by
      intro c hc
      cases acc with
      | none => exact Or.inl (by cases hc; rfl)
      | some c0 =>
        by_cases hgt : f a > f c0
        · simp only [latestStep, hgt, if_pos] at hc
          exact Or.inl (by cases hc; rfl)
        · simp only [latestStep, hgt, if_neg] at hc
          exact Or.inr hc
    have hfa : f a ≤ f x := by
      cases acc with
      | none => exact h3 a rfl
      | some c0 =>
        by_cases hgt : f a > f c0
        · exact h3 a (by simp [latestStep, hgt])
        · exact le_trans (le_of_not_lt hgt) (h3 c0 (by simp [latestStep, hgt]))
    refine ⟨?_, ?_, ?_⟩
    · rcases h1 with h1 | h1
      · rcases hstep x h1 with rfl | hacc
        · exact Or.inr (List.mem_cons_self _ _)
        · exact Or.inl hacc
      · exact Or.inr (List.mem_cons_of_mem _ h1)
    · intro y hy
      rcases List.mem_cons.mp hy with rfl | hy
      · exact hfa
      · exact h2 y hy
    · intro c hc
      cases acc with
      | none => cases hc
      | some c0 =>
        cases hc
        by_cases hgt : f a > f c
        · exact le_trans (le_of_lt hgt) (h3 a (by simp [latestStep, hgt]))
        · exact h3 c (by simp [latestStep, hgt])

theorem latestBy_spec (f : α → Nat) (l : List α) (x : α)
    (h : latestBy f l = some x) : x ∈ l ∧ ∀ y ∈ l, f y ≤ f x := by
  obtain ⟨h1, h2, _⟩ := foldl_latestStep_spec f l none x h
  rcases h1 with h1 | h1
  · cases h1
  · exact ⟨h1, h2⟩

theorem foldl_latestStep_isSome (f : α → Nat) (l : List α) :
    ∀ (c : α), (l.foldl (latestStep f) (some c)).isSome := by
  induction l with
  | nil => intro c; rfl
  | cons a l ih =>
    intro c
    rw [List.foldl_cons]
    by_cases hgt : f a > f c
    · simpa [latestStep, hgt] using ih a
    · simpa [latestStep, hgt] using ih c

theorem latestBy_isSome_of_mem (f : α → Nat) (l : List α) (y : α) (hy : y ∈ l) :
    (latestBy f l).isSome := by
  cases l with
  | nil => cases hy
  | cons a l =>
    unfold latestBy
    rw [List.foldl_cons]
    exact foldl_latestStep_isSome f l a

theorem find?_of_filter_eq_singleton {p : α → Bool} {l : List α} {r : α}
    (h : l.filter p = [r]) : l.find? p = some r := by
  induction l with
  | nil => simp at h
  | cons a l ih =>
    by_cases hp : p a
    · rw [List.filter_cons_of_pos hp] at h
      injection h with h1 h2
      subst h1
      simp [List.find?_cons, hp]
    · rw [List.filter_cons_of_neg hp] at h
      simp only [List.find?_cons, Bool.of_not_eq_true hp]
      exact ih h

theorem lookup_setAssoc_self (m : List (String × Newest)) (k : String) (x : Newest) :
    (setAssoc m k x).lookup k = some x := by
  induction m with
  | nil => simp [setAssoc, List.lookup]
  | cons e rest ih =>
    obtain ⟨ek, ev⟩ := e
    by_cases hk : ek = k
    · subst hk
      simp [setAssoc, List.lookup]
    · simp only [setAssoc, if_neg hk, List.lookup,
        beq_eq_false_iff_ne.mpr (fun h => hk h.symm)]
      exact ih

theorem lookup_setAssoc_ne (m : List (String × Newest)) (k : String) (x : Newest)
    (k' : String) (h : k' ≠ k) : (setAssoc m k x).lookup k' = m.lookup k' := by
  induction m with
  | nil => simp [setAssoc, List.lookup, beq_eq_false_iff_ne.mpr h]
  | cons e rest ih =>
    obtain ⟨ek, ev⟩ := e
    by_cases hk : ek = k
    · subst hk
      simp only [setAssoc, if_pos rfl]
      simp [List.lookup, beq_eq_false_iff_ne.mpr h]
    · simp only [setAssoc, if_neg hk, List.lookup]
      cases hbeq : (k' == ek) with
      | true => rfl
      | false => exact ih

theorem lookup_newestStep_of_eq (acc : List (String × Newest)) (a : ApiModel)
    (t : String) (h : parseModelType a.id = some t) :
    (newestStep acc a).lookup t = latestStep Newest.created_at (acc.lookup t) (toNewest a) := by
  unfold newestStep
  simp only [h]
  cases hlo : acc.lookup t with
  | none =>
    simp only [hlo, lookup_setAssoc_self]
    rfl
  | some cur =>
    by_cases hgt : a.created_at > cur.created_at
    · simp only [hlo, if_pos hgt, lookup_setAssoc_self]
      simp [latestStep, toNewest, hgt]
    · simp only [hlo, if_neg hgt]
      simp [latestStep, toNewest, hgt, hlo]

theorem lookup_newestStep_of_ne (acc : List (String × Newest)) (a : ApiModel)
    (t : String) (h : ¬ parseModelType a.id = some t) :
    (newestStep acc a).lookup t = acc.lookup t := by
  unfold newestStep
  cases hpt : parseModelType a.id with
  | none => rfl
  | some u =>
    have hut : t ≠ u := fun he => h (by rw [hpt, he])
    simp only
    cases hlo : acc.lookup u with
    | none =>
      simp only [hlo]
      exact lookup_setAssoc_ne acc u _ t hut
    | some cur =>
      by_cases hgt : a.created_at > cur.created_at
      · simp only [hlo, if_pos hgt]
        exact lookup_setAssoc_ne acc u _ t hut
      · simp only [hlo, if_neg hgt]

theorem lookup_foldl_newestStep (t : String) (l : List ApiModel) :
    ∀ acc : List (String × Newest),
      (l.foldl newestStep acc).lookup t =
        ((l.filter (fun m => parseModelType m.id = some t)).map toNewest).foldl
          (latestStep Newest.created_at) (acc.lookup t) := by
  induction l with
  | nil => intro acc; rfl
  | cons a l ih =>
    intro acc
    rw [List.foldl_cons]
    by_cases hpt : parseModelType a.id = some t
    · rw [List.filter_cons_of_pos (by simpa using hpt), List.map_cons, List.foldl_cons,
        ih (newestStep acc a), lookup_newestStep_of_eq acc a t hpt]
    · rw [List.filter_cons_of_neg (by simpa using hpt),
        ih (newestStep acc a), lookup_newestStep_of_ne acc a t hpt]

/-- C8: when fetching the upstream catalog fails (network error, bad status,
or missing API key — all surfaced as the `Except.error` fetch outcome), the
reconciliation run performs no registry write, appends a `sync_logs` row with
`success = false` carrying the error message, and returns a normal result
payload whose `success` flag is false; being a total function, the handler
never propagates an error to its caller. -/
theorem c8_fetch_failure_aborts_before_writes (st : SyncState) (msg : String)
    (now durationMs : Nat) :
    (syncHandler st (Except.error msg) now durationMs).fst.models = st.models ∧
    (syncHandler st (Except.error msg) now durationMs).fst.logs =
      st.logs ++ [⟨0, 0, 0, 0, false, some msg, durationMs, none, "cron"⟩] ∧
    (syncHandler st (Except.error msg) now durationMs).snd.success = false ∧
    (syncHandler st (Except.error msg) now durationMs).snd.errorMessage = some msg :=
  ⟨rfl, rfl, rfl, rfl⟩

/-- C3 counterexample: on a creation-time tie the sync handler keeps the item
seen first in listing order, not the lexicographically greatest id — the
spec-modelled arbitration picks `claude-haiku-bbb` while the code picks
`claude-haiku-aaa`, and reversing the listing order flips the code's choice,
so the selection is order-dependent. -/
theorem c3_tie_break_counterexample :
    (newestByType apiTie).lookup "haiku" = some ⟨"claude-haiku-aaa", 100⟩ ∧
    specNewest apiTie "haiku" = some ⟨"claude-haiku-bbb", "Haiku BBB", 100⟩ ∧
    (newestByType apiTie.reverse).lookup "haiku" =
      some ⟨"claude-haiku-bbb", 100⟩ := by
  decide

/-- C3 amended: for each category the sync handler selects the upstream item
with the maximum creation time among items resolvable to that category,
keeping the item that occurs first in listing order when several share the
maximal creation time (`latestBy` replaces its candidate only on a strictly
greater key), so the choice depends on the listing order exactly on ties. -/
theorem c3_newest_selection_amended (api : List ApiModel) (t : String) :
    (newestByType api).lookup t =
      latestBy Newest.created_at
        ((api.filter (fun m => parseModelType m.id = some t)).map toNewest) :=
  lookup_foldl_newestStep t api []

/-- C10: a resolution request that supplies no role is evaluated against the
experiment stage with the literal role `guest`; a running experiment whose
role list is non-null matches such a request exactly when that list contains
`"guest"` — the absence of a role does not make the request
role-unrestricted. -/
theorem c10_absent_role_defaults_to_guest (p : String) (t : AbTest)
    (roles : List String) (hroles : t.user_roles = some roles)
    (hrun : t.status = "running")
    (hproj : t.project_names = none ∨ ∃ ps, t.project_names = some ps ∧ p ∈ ps) :
    roleOrGuest none = "guest" ∧
    (testMatches p (roleOrGuest none) t = true ↔ "guest" ∈ roles) := by
  refine ⟨rfl, ?_⟩
  rcases hproj with hps | ⟨ps, hps, hmem⟩
  · simp [testMatches, roleOrGuest, hroles, hrun, hps, List.elem_iff]
  · simp [testMatches, roleOrGuest, hroles, hrun, hps, List.elem_iff, hmem]

/-- Witness for C10 at a concrete experiment. -/
theorem c10_witness :
    roleOrGuest none = "guest" ∧
    (testMatches "p1" (roleOrGuest none) guestTest = true ↔
      "guest" ∈ ["guest", "admin"]) :=
  c10_absent_role_defaults_to_guest "p1" guestTest ["guest", "admin"] rfl rfl
    (Or.inl rfl)

/-- C5, behaviour at the failing input: a telemetry event citing a model id
not in the registry is answered with the 200 `ok` payload carrying the
unknown-model warning and no cost is attributed — but the handler returns
before the hourly-bucket upsert, so contrary to the claim (and to the
response's own "usage tracked without cost" text) the event is not recorded:
the store, including the `model_usage` table, is left completely unchanged. -/
theorem c5_unknown_model_not_recorded :
    trackHandler "POST" true knownOnlyState unknownModelReq 3600 3700 =
      (knownOnlyState, TrackResp.unknownModel) ∧
    TrackResp.statusCode TrackResp.unknownModel = 200 ∧
    (trackHandler "POST" true knownOnlyState unknownModelReq 3600 3700).fst.usage = [] := by
  decide

theorem contains_of_mem_validTypes {ty : String} (hty : ty ∈ validTypes) :
    validTypes.contains ty = true :=
  List.elem_iff.mpr hty

theorem modelHandler_get (st : ResolveState) (ty : String)
    (project userRole : Option String) (now : Nat) (rnd : Rat) :
    modelHandler "GET" true st ty project userRole now rnd =
      resolve st ty project userRole now rnd := rfl

theorem projectOverrideQ_spec (ovs : List Override) (p ty : String) (now : Nat)
    (hne : ∃ o ∈ ovs, o.project_name = some p ∧ o.model_type = ty ∧ notExpired o now = true) :
    ∃ o, projectOverrideQ ovs p ty now = some o ∧ o ∈ ovs ∧
      o.project_name = some p ∧ o.model_type = ty ∧ notExpired o now = true ∧
      ∀ o' ∈ ovs, o'.project_name = some p → o'.model_type = ty →
        notExpired o' now = true → o'.created_at ≤ o.created_at := by
  obtain ⟨w, hw, hw1, hw2, hw3⟩ := hne
  have hwf : w ∈ ovs.filter
      (fun o => o.project_name = some p && o.model_type = ty && notExpired o now) :=
    List.mem_filter.mpr ⟨hw, by simp [hw1, hw2, hw3]⟩
  obtain ⟨o, ho⟩ := Option.isSome_iff_exists.mp
    (latestBy_isSome_of_mem (fun o => o.created_at) _ w hwf)
  obtain ⟨hmem, hmax⟩ := latestBy_spec _ _ o ho
  obtain ⟨homem, hoprop⟩ := List.mem_filter.mp hmem
  have h1 : o.project_name = some p := by
    have := hoprop
    simp only [Bool.and_eq_true, decide_eq_true_eq] at this
    exact this.1.1
  have h2 : o.model_type = ty := by
    have := hoprop
    simp only [Bool.and_eq_true, decide_eq_true_eq] at this
    exact this.1.2
  have h3 : notExpired o now = true := by
    have := hoprop
    simp only [Bool.and_eq_true, decide_eq_true_eq] at this
    exact this.2
  refine ⟨o, ho, homem, h1, h2, h3, ?_⟩
  intro o' ho' h1' h2' h3'
  exact hmax o' (List.mem_filter.mpr ⟨ho', by simp [h1', h2', h3']⟩)

theorem globalOverrideQ_spec (ovs : List Override) (ty : String) (now : Nat)
    (hne : ∃ o ∈ ovs, o.project_name = none ∧ o.model_type = ty ∧ notExpired o now = true) :
    ∃ o, globalOverrideQ ovs ty now = some o ∧ o ∈ ovs ∧
      o.project_name = none ∧ o.model_type = ty ∧ notExpired o now = true ∧
      ∀ o' ∈ ovs, o'.project_name = none → o'.model_type = ty →
        notExpired o' now = true → o'.created_at ≤ o.created_at := by
  obtain ⟨w, hw, hw1, hw2, hw3⟩ := hne
  have hwf : w ∈ ovs.filter
      (fun o => o.project_name = none && o.model_type = ty && notExpired o now) :=
    List.mem_filter.mpr ⟨hw, by simp [hw1, hw2, hw3]⟩
  obtain ⟨o, ho⟩ := Option.isSome_iff_exists.mp
    (latestBy_isSome_of_mem (fun o => o.created_at) _ w hwf)
  obtain ⟨hmem, hmax⟩ := latestBy_spec _ _ o ho
  obtain ⟨homem, hoprop⟩ := List.mem_filter.mp hmem
  simp only [Bool.and_eq_true, decide_eq_true_eq] at hoprop
  refine ⟨o, ho, homem, hoprop.1.1, hoprop.1.2, hoprop.2, ?_⟩
  intro o' ho' h1' h2' h3'
  exact hmax o' (List.mem_filter.mpr ⟨ho', by simp [h1', h2', h3']⟩)

theorem activeTestQ_spec (tests : List AbTest) (p role : String)
    (hne : ∃ t ∈ tests, testMatches p role t = true) :
    ∃ t, activeTestQ tests p role = some t ∧ t ∈ tests ∧ testMatches p role t = true ∧
      ∀ t' ∈ tests, testMatches p role t' = true → t'.created_at ≤ t.created_at := by
  obtain ⟨w, hw, hwm⟩ := hne
  have hwf : w ∈ tests.filter (testMatches p role) := List.mem_filter.mpr ⟨hw, hwm⟩
  obtain ⟨t, ht⟩ := Option.isSome_iff_exists.mp
    (latestBy_isSome_of_mem (fun t => t.created_at) _ w hwf)
  obtain ⟨hmem, hmax⟩ := latestBy_spec _ _ t ht
  obtain ⟨htmem, htprop⟩ := List.mem_filter.mp hmem
  refine ⟨t, ht, htmem, htprop, ?_⟩
  intro t' ht' hm'
  exact hmax t' (List.mem_filter.mpr ⟨ht', hm'⟩)

theorem resolve_stage1 (st : ResolveState) (p ty : String) (userRole : Option String)
    (now : Nat) (rnd : Rat) (o : Override)
    (hty : validTypes.contains ty = true)
    (hq : projectOverrideQ st.overrides p ty now = some o) :
    resolve st ty (some p) userRole now rnd =
      ResolveResp.projectOverride o.override_model_id ty p := by
  unfold resolve
  rw [hty]
  simp [hq]

theorem resolve_stage2 (st : ResolveState) (ty : String)
    (project userRole : Option String) (now : Nat) (rnd : Rat) (o : Override)
    (hty : validTypes.contains ty = true)
    (h1 : ∀ p, project = some p → projectOverrideQ st.overrides p ty now = none)
    (hq : globalOverrideQ st.overrides ty now = some o) :
    resolve st ty project userRole now rnd =
      ResolveResp.globalOverride o.override_model_id ty := by
  unfold resolve
  rw [hty]
  cases project with
  | none => simp [hq]
  | some p => simp [h1 p rfl, hq]

theorem resolve_stage3 (st : ResolveState) (ty p : String) (userRole : Option String)
    (now : Nat) (rnd : Rat) (t : AbTest)
    (hty : validTypes.contains ty = true)
    (h1 : projectOverrideQ st.overrides p ty now = none)
    (h2 : globalOverrideQ st.overrides ty now = none)
    (hq : activeTestQ st.tests p (roleOrGuest userRole) = some t) :
    resolve st ty (some p) userRole now rnd =
      ResolveResp.abTest
        (if rnd < (t.traffic_split_percent : Rat) then t.model_a else t.model_b)
        ty t.id t.test_name
        (if rnd < (t.traffic_split_percent : Rat) then "model_a" else "model_b") := by
  unfold resolve
  rw [hty]
  by_cases hlt : rnd < (t.traffic_split_percent : Rat)
  · simp [h1, h2, hq, hlt]
  · simp [h1, h2, hq, hlt]

theorem resolve_emergency (st : ResolveState) (ty : String)
    (project userRole : Option String) (now : Nat) (rnd : Rat)
    (hty : validTypes.contains ty = true)
    (h1 : ∀ p, project = some p → projectOverrideQ st.overrides p ty now = none)
    (h2 : globalOverrideQ st.overrides ty now = none)
    (h3 : ∀ p, project = some p → activeTestQ st.tests p (roleOrGuest userRole) = none)
    (h4 : currentModelQ st.models ty = none)
    (h5 : workingModelQ st.models ty = none) :
    resolve st ty project userRole now rnd =
      ResolveResp.emergency ((emergencyFallback ty).getD "") ty := by
  unfold resolve
  rw [hty]
  cases project with
  | none => simp [h2, h4, h5]
  | some p => simp [h1 p rfl, h2, h3 p rfl, h4, h5]

theorem resolve_statusCode_valid (st : ResolveState) (ty : String)
    (project userRole : Option String) (now : Nat) (rnd : Rat)
    (hty : validTypes.contains ty = true) :
    (resolve st ty project userRole now rnd).statusCode = 200 := by
  unfold resolve
  rw [hty]
  cases project with
  | none =>
    cases hg : globalOverrideQ st.overrides ty now with
    | some o => simp [hg, ResolveResp.statusCode]
    | none =>
      cases hc : currentModelQ st.models ty with
      | some cm => simp [hg, hc, ResolveResp.statusCode]
      | none =>
        cases hw : workingModelQ st.models ty with
        | some w => simp [hg, hc, hw, ResolveResp.statusCode]
        | none => simp [hg, hc, hw, ResolveResp.statusCode]
  | some p =>
    cases hp : projectOverrideQ st.overrides p ty now with
    | some o => simp [hp, ResolveResp.statusCode]
    | none =>
      cases hg : globalOverrideQ st.overrides ty now with
      | some o => simp [hp, hg, ResolveResp.statusCode]
      | none =>
        cases ha : activeTestQ st.tests p (roleOrGuest userRole) with
        | some t =>
          by_cases hlt : rnd < (t.traffic_split_percent : Rat)
          · simp [hp, hg, ha, hlt, ResolveResp.statusCode]
          · simp [hp, hg, ha, hlt, ResolveResp.statusCode]
        | none =>
          cases hc : currentModelQ st.models ty with
          | some cm => simp [hp, hg, ha, hc, ResolveResp.statusCode]
          | none =>
            cases hw : workingModelQ st.models ty with
            | some w => simp [hp, hg, ha, hc, hw, ResolveResp.statusCode]
            | none => simp [hp, hg, ha, hc, hw, ResolveResp.statusCode]

/-- C7: for a request carrying a project, when a non-expired project-scoped
override and a non-expired global override both exist for the category, the
handler returns the project-scoped target with provenance `project_override`;
and within each scope the applied override is one whose expiry is null or in
the future with maximal creation time (the global scope being exercised when
no eligible project-scoped override exists). -/
theorem c7_project_override_outranks_global :
    (∀ (st : ResolveState) (p ty : String) (userRole : Option String) (now : Nat) (rnd : Rat),
      ty ∈ validTypes →
      (∃ o ∈ st.overrides, o.project_name = some p ∧ o.model_type = ty ∧ notExpired o now = true) →
      (∃ o ∈ st.overrides, o.project_name = none ∧ o.model_type = ty ∧ notExpired o now = true) →
      ∃ o ∈ st.overrides,
        o.project_name = some p ∧ o.model_type = ty ∧ notExpired o now = true ∧
        (∀ o' ∈ st.overrides, o'.project_name = some p → o'.model_type = ty →
          notExpired o' now = true → o'.created_at ≤ o.created_at) ∧
        modelHandler "GET" true st ty (some p) userRole now rnd =
          ResolveResp.projectOverride o.override_model_id ty p) ∧
    (∀ (st : ResolveState) (ty : String) (project userRole : Option String) (now : Nat) (rnd : Rat),
      ty ∈ validTypes →
      (∀ q, project = some q → projectOverrideQ st.overrides q ty now = none) →
      (∃ o ∈ st.overrides, o.project_name = none ∧ o.model_type = ty ∧ notExpired o now = true) →
      ∃ o ∈ st.overrides,
        o.project_name = none ∧ o.model_type = ty ∧ notExpired o now = true ∧
        (∀ o' ∈ st.overrides, o'.project_name = none → o'.model_type = ty →
          notExpired o' now = true → o'.created_at ≤ o.created_at) ∧
        modelHandler "GET" true st ty project userRole now rnd =
          ResolveResp.globalOverride o.override_model_id ty) := by
  constructor
  · intro st p ty userRole now rnd hty hproj _hglob
    obtain ⟨o, ho, homem, h1, h2, h3, hmax⟩ :=
      projectOverrideQ_spec st.overrides p ty now hproj
    exact ⟨o, homem, h1, h2, h3, hmax,
      (modelHandler_get st ty (some p) userRole now rnd).trans
        (resolve_stage1 st p ty userRole now rnd o (contains_of_mem_validTypes hty) ho)⟩
  · intro st ty project userRole now rnd hty hnone hglob
    obtain ⟨o, ho, homem, h1, h2, h3, hmax⟩ :=
      globalOverrideQ_spec st.overrides ty now hglob
    exact ⟨o, homem, h1, h2, h3, hmax,
      (modelHandler_get st ty project userRole now rnd).trans
        (resolve_stage2 st ty project userRole now rnd o
          (contains_of_mem_validTypes hty) hnone ho)⟩

/-- Witness for C7 at a concrete store: the project-scoped override wins. -/
theorem c7_witness :
    ∃ o ∈ overrideState.overrides,
      o.project_name = some "ai" ∧ o.model_type = "sonnet" ∧ notExpired o 1000 = true ∧
      (∀ o' ∈ overrideState.overrides, o'.project_name = some "ai" →
        o'.model_type = "sonnet" → notExpired o' 1000 = true →
        o'.created_at ≤ o.created_at) ∧
      modelHandler "GET" true overrideState "sonnet" (some "ai") none 1000 50 =
        ResolveResp.projectOverride o.override_model_id "sonnet" "ai" :=
  c7_project_override_outranks_global.1 overrideState "ai" "sonnet" none 1000 50
    (by decide) ⟨overProj, by decide⟩ ⟨overGlob, by decide⟩

/-- C9: for a valid category and credential the handler always answers with
HTTP 200; when the registry holds no record of the category and no override or
experiment applies, the answer is the built-in emergency mapping with
provenance `emergency`; and the catch block (any unexpected internal error)
likewise answers 200 with the same mapping. -/
theorem c9_resolution_never_errors (st : ResolveState) (ty : String)
    (project userRole : Option String) (now : Nat) (rnd : Rat)
    (hty : ty ∈ validTypes) :
    (modelHandler "GET" true st ty project userRole now rnd).statusCode = 200 ∧
    ((∀ p, project = some p → projectOverrideQ st.overrides p ty now = none ∧
        activeTestQ st.tests p (roleOrGuest userRole) = none) →
      globalOverrideQ st.overrides ty now = none →
      (∀ m ∈ st.models, ¬ m.model_type = ty) →
      ∃ fid, emergencyFallback ty = some fid ∧
        modelHandler "GET" true st ty project userRole now rnd =
          ResolveResp.emergency fid ty) ∧
    catchResponse ty =
      ResolveResp.emergency ((emergencyFallback ty).getD "claude-sonnet-4-5") ty ∧
    (catchResponse ty).statusCode = 200 := by
  refine ⟨?_, ?_, rfl, rfl⟩
  · rw [modelHandler_get]
    exact resolve_statusCode_valid st ty project userRole now rnd
      (contains_of_mem_validTypes hty)
  · intro hov hglob hempty
    have h4 : currentModelQ st.models ty = none := by
      unfold currentModelQ
      rw [List.filter_eq_nil_iff.mpr (by intro m hm; simp [hempty m hm])]
      rfl
    have h5 : workingModelQ st.models ty = none := by
      unfold workingModelQ
      rw [List.filter_eq_nil_iff.mpr (by intro m hm; simp [hempty m hm])]
      rfl
    have hres := resolve_emergency st ty project userRole now rnd
      (contains_of_mem_validTypes hty)
      (fun p hp => (hov p hp).1) hglob (fun p hp => (hov p hp).2) h4 h5
    have hty' : ty = "sonnet" ∨ ty = "haiku" ∨ ty = "opus" := by
      simpa [validTypes] using hty
    rcases hty' with rfl | rfl | rfl
    · exact ⟨"claude-sonnet-4-5", rfl, by rw [modelHandler_get, hres]; rfl⟩
    · exact ⟨"claude-haiku-4-5", rfl, by rw [modelHandler_get, hres]; rfl⟩
    · exact ⟨"claude-opus-4-1", rfl, by rw [modelHandler_get, hres]; rfl⟩

/-- Witness for C9: registry empty for haiku, no overrides, no experiments. -/
theorem c9_witness :
    (modelHandler "GET" true ⟨[], [], []⟩ "haiku" none none 1000 50).statusCode = 200 ∧
    ((∀ p, (none : Option String) = some p →
        projectOverrideQ ([] : List Override) p "haiku" 1000 = none ∧
        activeTestQ ([] : List AbTest) p (roleOrGuest none) = none) →
      globalOverrideQ ([] : List Override) "haiku" 1000 = none →
      (∀ m ∈ ([] : List DbModel), ¬ m.model_type = "haiku") →
      ∃ fid, emergencyFallback "haiku" = some fid ∧
        modelHandler "GET" true ⟨[], [], []⟩ "haiku" none none 1000 50 =
          ResolveResp.emergency fid "haiku") ∧
    catchResponse "haiku" =
      ResolveResp.emergency ((emergencyFallback "haiku").getD "claude-sonnet-4-5") "haiku" ∧
    (catchResponse "haiku").statusCode = 200 :=
  c9_resolution_never_errors ⟨[], [], []⟩ "haiku" none none 1000 50 (by decide)

/-- C4 counterexample: (i) a request for category `sonnet` is served by the
experiment stage from an experiment whose two candidates are haiku models —
the `ab_tests` table has no category column and the PRIORITY 3 query never
compares the requested category, contradicting "whose category matches the
requested category"; (ii) a request without a project skips the experiment
stage entirely even though the same experiment's project targeting is
unrestricted, contradicting "for every resolution request on which stages 1-2
do not match". -/
theorem c4_category_not_matched_counterexample :
    (modelHandler "GET" true c4State "sonnet" (some "p1") none 1000 50 =
        ResolveResp.abTest "claude-haiku-4-5" "sonnet" 7 "haiku-pair" "model_a" ∧
      parseModelType "claude-haiku-4-5" = some "haiku") ∧
    modelHandler "GET" true c4State "sonnet" none none 1000 50 =
      ResolveResp.current "claude-sonnet-4-5-20250929" "sonnet"
        (some "claude-sonnet-4-5-20250929") (some 20) := by
  decide

/-- C4 amended: for a request that carries a project and on which stages 1–2
do not match, the experiment stage selects the most-recently-created running
experiment whose project targeting matches and whose role targeting matches
(the role defaulting to `guest`), with no category condition; one uniform
draw in [0,100) picks variant A when it is below the split percentage, else
variant B, echoed with provenance `ab_test`, experiment id, name and variant.
Requests without a project never reach this stage. -/
theorem c4_experiment_stage_amended (st : ResolveState) (ty p : String)
    (userRole : Option String) (now : Nat) (rnd : Rat)
    (hty : ty ∈ validTypes)
    (h1 : projectOverrideQ st.overrides p ty now = none)
    (h2 : globalOverrideQ st.overrides ty now = none)
    (hex : ∃ t ∈ st.tests, testMatches p (roleOrGuest userRole) t = true) :
    ∃ t ∈ st.tests, testMatches p (roleOrGuest userRole) t = true ∧
      (∀ t' ∈ st.tests, testMatches p (roleOrGuest userRole) t' = true →
        t'.created_at ≤ t.created_at) ∧
      modelHandler "GET" true st ty (some p) userRole now rnd =
        ResolveResp.abTest
          (if rnd < (t.traffic_split_percent : Rat) then t.model_a else t.model_b)
          ty t.id t.test_name
          (if rnd < (t.traffic_split_percent : Rat) then "model_a" else "model_b") := by
  obtain ⟨t, ht, htmem, htm, hmax⟩ := activeTestQ_spec st.tests p (roleOrGuest userRole) hex
  exact ⟨t, htmem, htm, hmax,
    (modelHandler_get st ty (some p) userRole now rnd).trans
      (resolve_stage3 st ty p userRole now rnd t (contains_of_mem_validTypes hty) h1 h2 ht)⟩

/-- Witness for the amended C4 at the concrete store of the counterexample. -/
theorem c4_amended_witness :
    ∃ t ∈ c4State.tests, testMatches "p1" (roleOrGuest none) t = true ∧
      (∀ t' ∈ c4State.tests, testMatches "p1" (roleOrGuest none) t' = true →
        t'.created_at ≤ t.created_at) ∧
      modelHandler "GET" true c4State "sonnet" (some "p1") none 1000 50 =
        ResolveResp.abTest
          (if (50 : Rat) < (t.traffic_split_percent : Rat) then t.model_a else t.model_b)
          "sonnet" t.id t.test_name
          (if (50 : Rat) < (t.traffic_split_percent : Rat) then "model_a" else "model_b") :=
  c4_experiment_stage_amended c4State "sonnet" "p1" none 1000 50 (by decide) rfl rfl
    ⟨haikuPairTest, by decide⟩

theorem track_health_step (M : String) (e : TrackReq) (hour now : Nat) (s : Nat)
    (st : TrackState) (hM : e.modelId = M) (hMne : M ≠ "") (hproj : e.projectName ≠ "")
    (hinv : ∀ r ∈ st.models, r.model_id = M →
      r.error_count = s ∧ r.is_working = decide (s ≤ 10)) :
    ∀ r ∈ (track st e hour now).fst.models, r.model_id = M →
      r.error_count = streakStep s e.success ∧
      r.is_working = decide (streakStep s e.success ≤ 10) := by
  unfold track
  rw [if_neg (by simp [hproj, hM, hMne])]
  cases hf : st.models.find? (fun m => m.model_id = e.modelId) with
  | none =>
    have hnone := List.find?_eq_none.mp hf
    intro r hr hrM
    exact absurd (by simpa using hnone r hr) (by simp [hrM, hM])
  | some model =>
    simp only
    intro r hr hrM
    cases he : e.success with
    | true =>
      rw [he] at hr
      simp only [if_pos rfl, mapIf] at hr
      obtain ⟨m, hm, hrdef⟩ := List.mem_map.mp hr
      by_cases hmM : m.model_id = e.modelId
      · rw [if_pos (by simpa using hmM)] at hrdef
        subst hrdef
        simp [streakStep, registrySuccess]
      · rw [if_neg (by simpa using hmM)] at hrdef
        subst hrdef
        exact absurd (hrM.trans hM.symm) hmM
    | false =>
      rw [he] at hr
      rw [if_neg (show ¬ (false = true) by simp)] at hr
      simp only [mapIf] at hr
      obtain ⟨m, hm, hrdef⟩ := List.mem_map.mp hr
      by_cases hmM : m.model_id = e.modelId
      · rw [if_pos (by simpa using hmM)] at hrdef
        subst hrdef
        obtain ⟨hec, hwk⟩ := hinv m hm (hmM.trans hM)
        refine ⟨by simp [registryFailure, hec, streakStep], ?_⟩
        simp only [registryFailure, streakStep]
        rw [hec, hwk]
        by_cases hgt : s + 1 > 10
        · rw [if_pos hgt]
          have hns : ¬ (s + 1 ≤ 10) := by omega
          simp [hns]
        · rw [if_neg hgt]
          have h10 : s ≤ 10 := by omega
          have h10' : s + 1 ≤ 10 := by omega
          simp [h10, h10']
      · rw [if_neg (by simpa using hmM)] at hrdef
        subst hrdef
        exact absurd (hrM.trans hM.symm) hmM

theorem processEvents_health (M : String) (hMne : M ≠ "") :
    ∀ (events : List (TrackReq × Nat × Nat)) (st : TrackState) (s : Nat),
      (∀ e ∈ events, e.fst.modelId = M ∧ e.fst.projectName ≠ "") →
      (∀ r ∈ st.models, r.model_id = M →
        r.error_count = s ∧ r.is_working = decide (s ≤ 10)) →
      ∀ r ∈ (processEvents st events).models, r.model_id = M →
        r.error_count = (events.map (fun e => e.fst.success)).foldl streakStep s ∧
        r.is_working =
          decide ((events.map (fun e => e.fst.success)).foldl streakStep s ≤ 10) := by
  intro events
  induction events with
  | nil => intro st s _ hinv; exact hinv
  | cons e rest ih =>
    intro st s hev hinv
    have he := hev e (List.mem_cons_self _ _)
    have hstep := track_health_step M e.fst e.snd.fst e.snd.snd s st he.1 hMne he.2 hinv
    exact ih (track st e.fst e.snd.fst e.snd.snd).fst (streakStep s e.fst.success)
      (fun x hx => hev x (List.mem_cons_of_mem _ hx)) hstep

/-- C6: over any sequence of accepted telemetry events for a fixed registry
model id `M` (each event cites `M` and passes validation), starting from a
healthy record (streak 0, working), every registry row for `M` afterwards has
`error_count` equal to the consecutive-failure streak of the event sequence
and `is_working` true exactly while that streak is at most 10 — so the flag
flips to false on the 11th consecutive failure and back to true (streak reset
to 0) on the very next success, regardless of successes seen before the
threshold was crossed. -/
theorem c6_working_flips_at_streak_threshold (M : String)
    (events : List (TrackReq × Nat × Nat)) (st : TrackState)
    (hMne : M ≠ "")
    (hev : ∀ e ∈ events, e.fst.modelId = M ∧ e.fst.projectName ≠ "")
    (hinit : ∀ r ∈ st.models, r.model_id = M →
      r.error_count = 0 ∧ r.is_working = true) :
    ∀ r ∈ (processEvents st events).models, r.model_id = M →
      r.error_count = failStreak (events.map (fun e => e.fst.success)) ∧
      r.is_working = decide (failStreak (events.map (fun e => e.fst.success)) ≤ 10) :=
  processEvents_health M hMne events st 0 hev
    (fun r hr hrM => ⟨(hinit r hr hrM).1, by rw [(hinit r hr hrM).2]; rfl⟩)

/-- Witness for C6: after eleven straight failures the streak is 11 and the
(unique, still present) registry row for the model is no longer working. -/
theorem c6_witness :
    failStreak (elevenFailures.map (fun e => e.fst.success)) = 11 ∧
    (∃ r ∈ (processEvents knownOnlyState elevenFailures).models,
      r.model_id = "claude-sonnet-4-5-20250929") ∧
    ∀ r ∈ (processEvents knownOnlyState elevenFailures).models,
      r.model_id = "claude-sonnet-4-5-20250929" →
      r.error_count = failStreak (elevenFailures.map (fun e => e.fst.success)) ∧
      r.is_working =
        decide (failStreak (elevenFailures.map (fun e => e.fst.success)) ≤ 10) :=
  ⟨by decide, by decide,
    c6_working_flips_at_streak_threshold "claude-sonnet-4-5-20250929"
      elevenFailures knownOnlyState (by decide) (by decide) (by decide)⟩

theorem mapIf_cons (p : DbModel → Bool) (f : DbModel → DbModel) (m : DbModel)
    (db : List DbModel) :
    mapIf p f (m :: db) = (if p m then f m else m) :: mapIf p f db := rfl

theorem idsOf_mapIf (p : DbModel → Bool) (f : DbModel → DbModel)
    (hf : ∀ m, (f m).model_id = m.model_id) (db : List DbModel) :
    idsOf (mapIf p f db) = idsOf db := by
  unfold idsOf mapIf
  rw [List.map_map]
  apply List.map_congr_left
  intro m _
  by_cases hp : p m
  · simp [hp, hf m]
  · simp [hp]

theorem typeConsistent_mapIf (p : DbModel → Bool) (f : DbModel → DbModel)
    (db : List DbModel) (hc : typeConsistent db)
    (hf : ∀ m, (f m).model_id = m.model_id ∧ (f m).model_type = m.model_type) :
    typeConsistent (mapIf p f db) := by
  intro r hr
  obtain ⟨m, hm, rfl⟩ := List.mem_map.mp hr
  by_cases hp : p m
  · rw [if_pos hp, (hf m).1, (hf m).2]
    exact hc m hm
  · rw [if_neg hp]
    exact hc m hm

theorem mem_mapIf_of_not_p (p : DbModel → Bool) (f : DbModel → DbModel)
    (db : List DbModel) (m : DbModel) (hm : m ∈ db) (hp : p m = false) :
    m ∈ mapIf p f db := by
  have : m = (fun x => if p x then f x else x) m := by simp [hp]
  rw [this]
  exact List.mem_map_of_mem _ hm

theorem mapIf_row_origin (p : DbModel → Bool) (f : DbModel → DbModel)
    (db : List DbModel) (r : DbModel) (hr : r ∈ mapIf p f db) :
    ∃ m ∈ db, (p m = true ∧ r = f m) ∨ (p m = false ∧ r = m) := by
  obtain ⟨m, hm, rfl⟩ := List.mem_map.mp hr
  by_cases hp : p m
  · exact ⟨m, hm, Or.inl ⟨hp, by rw [if_pos hp]⟩⟩
  · exact ⟨m, hm, Or.inr ⟨Bool.of_not_eq_true hp, by rw [if_neg hp]⟩⟩

theorem length_filter_mapIf_le (q p : DbModel → Bool) (f : DbModel → DbModel)
    (db : List DbModel) (h : ∀ m ∈ db, p m = true → q (f m) = false) :
    ((mapIf p f db).filter q).length ≤ (db.filter q).length := by
  rw [← List.countP_eq_length_filter, ← List.countP_eq_length_filter]
  unfold mapIf
  rw [List.countP_map]
  apply List.countP_mono_left
  intro m hm hq
  by_cases hp : p m
  · rw [Function.comp_apply, if_pos hp] at hq
    rw [h m hm hp] at hq
    cases hq
  · rwa [Function.comp_apply, if_neg hp] at hq

theorem filter_mapIf_eq (q p : DbModel → Bool) (f : DbModel → DbModel)
    (db : List DbModel)
    (h : ∀ m ∈ db, p m = true → q m = false ∧ q (f m) = false) :
    (mapIf p f db).filter q = db.filter q := by
  induction db with
  | nil => rfl
  | cons m db ih =>
    have ih' := ih (fun x hx => h x (List.mem_cons_of_mem _ hx))
    rw [mapIf_cons]
    by_cases hp : p m
    · obtain ⟨h1, h2⟩ := h m (List.mem_cons_self _ _) hp
      rw [if_pos hp, List.filter_cons_of_neg (by simp [h2]),
        List.filter_cons_of_neg (by simp [h1])]
      exact ih'
    · rw [if_neg hp, List.filter_cons, List.filter_cons, ih']

theorem insertLoop_state (now : Nat) (l : List ApiModel) :
    ∀ db : List DbModel, (insertLoop now db l).state = db ++ newRecords now l := by
  induction l with
  | nil => intro db; simp [insertLoop, newRecords]
  | cons a l ih =>
    intro db
    unfold insertLoop newRecords
    cases hpt : parseModelType a.id with
    | none => simpa using ih db
    | some t =>
      simp only
      rw [ih (db ++ [freshModel a t now]), List.append_assoc]
      rfl

theorem deprecateLoop_state (now : Nat) (ids : List String) :
    ∀ db : List DbModel,
      (deprecateLoop now db ids).state =
        db.map (fun m => if ids.contains m.model_id then depTransform m now else m) := by
  induction ids with
  | nil =>
    intro db
    simp [deprecateLoop]
  | cons id ids ih =>
    intro db
    unfold deprecateLoop
    simp only
    rw [ih (deprecateOne db id now)]
    unfold deprecateOne mapIf
    rw [List.map_map]
    apply List.map_congr_left
    intro m _
    simp only [Function.comp_apply]
    by_cases hid : m.model_id = id
    · simp [hid, depTransform, List.contains_cons]
    · simp [hid, List.contains_cons]

theorem mem_newRecords (now : Nat) (l : List ApiModel) (r : DbModel)
    (hr : r ∈ newRecords now l) :
    ∃ a ∈ l, ∃ t, parseModelType a.id = some t ∧ r = freshModel a t now := by
  induction l with
  | nil => cases hr
  | cons a l ih =>
    unfold newRecords at hr
    cases hpt : parseModelType a.id with
    | none =>
      rw [hpt] at hr
      obtain ⟨b, hb, hbr⟩ := ih hr
      exact ⟨b, List.mem_cons_of_mem _ hb, hbr⟩
    | some t =>
      rw [hpt] at hr
      rcases List.mem_cons.mp hr with rfl | hr'
      · exact ⟨a, List.mem_cons_self _ _, t, hpt, rfl⟩
      · obtain ⟨b, hb, hbr⟩ := ih hr'
        exact ⟨b, List.mem_cons_of_mem _ hb, hbr⟩

theorem id_mem_newRecords (now : Nat) (l : List ApiModel) (a : ApiModel)
    (ha : a ∈ l) (t : String) (hpt : parseModelType a.id = some t) :
    a.id ∈ idsOf (newRecords now l) := by
  induction l with
  | nil => cases ha
  | cons b l ih =>
    unfold newRecords
    rcases List.mem_cons.mp ha with rfl | ha'
    · rw [hpt]
      exact List.mem_cons_self _ _
    · cases hpb : parseModelType b.id with
      | none => exact ih ha'
      | some u => exact List.mem_cons_of_mem _ (ih ha')

theorem idsOf_newRecords_sublist (now : Nat) (l : List ApiModel) :
    List.Sublist (idsOf (newRecords now l)) (l.map (fun a => a.id)) := by
  induction l with
  | nil => simp [newRecords, idsOf]
  | cons a l ih =>
    unfold newRecords
    cases hpt : parseModelType a.id with
    | none => exact ih.trans (List.sublist_cons_self _ _)
    | some t => exact List.Sublist.cons₂ _ ih

theorem currents_append (t : String) (db rs : List DbModel) :
    currents t (db ++ rs) = currents t db ++ currents t rs := by
  unfold currents
  exact List.filter_append _ _

theorem currents_newRecords (t : String) (now : Nat) (l : List ApiModel) :
    currents t (newRecords now l) = [] := by
  unfold currents
  rw [List.filter_eq_nil_iff]
  intro r hr
  obtain ⟨a, _, u, _, rfl⟩ := mem_newRecords now l r hr
  simp [freshModel]

theorem currents_deprecateOne_le (t : String) (db : List DbModel) (id : String)
    (now : Nat) :
    (currents t (deprecateOne db id now)).length ≤ (currents t db).length :=
  length_filter_mapIf_le _ _ _ db (fun m _ _ => by simp [depTransform])

theorem currents_clearCurrent_self (t : String) (db : List DbModel) :
    currents t (clearCurrent db t) = [] := by
  unfold currents
  rw [List.filter_eq_nil_iff]
  intro r hr
  obtain ⟨m, _, hor⟩ := mapIf_row_origin _ _ db r hr
  rcases hor with ⟨_, rfl⟩ | ⟨hp, rfl⟩
  · simp [clearTransform]
  · simp only [decide_eq_false_iff_not] at hp
    simp [hp]

theorem currents_clearCurrent_other (t t' : String) (hne : t ≠ t')
    (db : List DbModel) :
    currents t (clearCurrent db t') = currents t db :=
  filter_mapIf_eq _ _ _ db (fun m _ hp => by
    have hmt : m.model_type = t' := by simpa using hp
    constructor
    · simp [hmt, Ne.symm hne]
    · simp [clearTransform])

theorem currents_setCurrent_other (t t' : String) (id : String) (now : Nat)
    (db : List DbModel) (hc : typeConsistent db)
    (hpt : parseModelType id = some t') (hne : t ≠ t') :
    currents t (setCurrent db id now) = currents t db :=
  filter_mapIf_eq _ _ _ db (fun m hm hp => by
    have hid : m.model_id = id := by simpa using hp
    have hmt : m.model_type = t' := by
      have hcm := hc m hm
      rw [hid, hpt] at hcm
      exact (Option.some.injEq _ _ ▸ hcm).symm
    constructor
    · simp [hmt, Ne.symm hne]
    · simp [setTransform, hmt, Ne.symm hne])

theorem setTransform_clearTransform (m : DbModel) (now : Nat) :
    setTransform (clearTransform m) now = setTransform m now := rfl

theorem currents_set_after_clear (t : String) (id : String) (now : Nat)
    (db : List DbModel) (hc : typeConsistent db)
    (hpt : parseModelType id = some t) :
    currents t (setCurrent (clearCurrent db t) id now) =
      (db.filter (fun m => m.model_id = id)).map (fun m => setTransform m now) := by
  induction db with
  | nil => rfl
  | cons m db ih =>
    have hcm := hc m (List.mem_cons_self _ _)
    have hc' : typeConsistent db := fun x hx => hc x (List.mem_cons_of_mem _ hx)
    have ih' := ih hc'
    unfold clearCurrent setCurrent at *
    rw [mapIf_cons]
    by_cases hid : m.model_id = id
    · have hty : m.model_type = t := by
        rw [hid, hpt] at hcm
        exact (Option.some.injEq _ _ ▸ hcm).symm
      rw [if_pos (by simpa using hty), mapIf_cons,
        if_pos (by simpa [clearTransform] using hid)]
      unfold currents
      rw [List.filter_cons_of_pos (by simp [setTransform, clearTransform, hty]),
        List.filter_cons_of_pos (by simpa using hid)]
      rw [List.map_cons]
      exact congrArg _ ih'
    · by_cases hty : m.model_type = t
      · rw [if_pos (by simpa using hty), mapIf_cons,
          if_neg (by simpa [clearTransform] using hid)]
        unfold currents
        rw [List.filter_cons_of_neg (by simp [clearTransform]),
          List.filter_cons_of_neg (by simpa using hid)]
        exact ih'
      · rw [if_neg (by simpa using hty), mapIf_cons,
          if_neg (by simpa using hid)]
        unfold currents
        rw [List.filter_cons_of_neg (by simp [hty]),
          List.filter_cons_of_neg (by simpa using hid)]
        exact ih'

theorem filter_id_nil (db : List DbModel) (id : String) (h : ¬ id ∈ idsOf db) :
    db.filter (fun m => m.model_id = id) = [] := by
  rw [List.filter_eq_nil_iff]
  intro m hm
  simp only [decide_eq_true_eq]
  intro hid
  exact h (hid ▸ List.mem_map_of_mem _ hm)

theorem filter_id_singleton (db : List DbModel) (id : String)
    (hnd : (idsOf db).Nodup) (hid : id ∈ idsOf db) :
    ∃ r, db.filter (fun m => m.model_id = id) = [r] ∧ r.model_id = id ∧ r ∈ db := by
  induction db with
  | nil => cases hid
  | cons m db ih =>
    rw [idsOf, List.map_cons, List.nodup_cons] at hnd
    by_cases hmid : m.model_id = id
    · refine ⟨m, ?_, hmid, List.mem_cons_self _ _⟩
      rw [List.filter_cons_of_pos (by simpa using hmid),
        filter_id_nil db id (by unfold idsOf; rw [← hmid]; exact hnd.1)]
    · have hcase : id = m.model_id ∨ ∃ a ∈ db, a.model_id = id := by
        simpa [idsOf] using hid
      rcases hcase with heq | ⟨a, ha, haid⟩
      · exact absurd heq.symm hmid
      · obtain ⟨r, hr1, hr2, hr3⟩ := ih hnd.2
          (by unfold idsOf; rw [← haid]; exact List.mem_map_of_mem _ ha)
        exact ⟨r, by rw [List.filter_cons_of_neg (by simpa using hmid), hr1],
          hr2, List.mem_cons_of_mem _ hr3⟩

theorem length_filter_id_le_one (db : List DbModel) (id : String)
    (hnd : (idsOf db).Nodup) :
    (db.filter (fun m => m.model_id = id)).length ≤ 1 := by
  by_cases hid : id ∈ idsOf db
  · obtain ⟨r, hr, -⟩ := filter_id_singleton db id hnd hid
    rw [hr]
    exact Nat.le_refl 1
  · rw [filter_id_nil db id hid]
    exact Nat.zero_le 1

theorem mem_setAssoc (m : List (String × Newest)) (k : String) (x : Newest)
    (te : String × Newest) (hte : te ∈ setAssoc m k x) : te = (k, x) ∨ te ∈ m := by
  induction m with
  | nil => simpa [setAssoc] using hte
  | cons e rest ih =>
    obtain ⟨ek, ev⟩ := e
    unfold setAssoc at hte
    by_cases hk : ek = k
    · rw [if_pos hk] at hte
      rcases List.mem_cons.mp hte with rfl | h
      · exact Or.inl (by rw [hk])
      · exact Or.inr (List.mem_cons_of_mem _ h)
    · rw [if_neg hk] at hte
      rcases List.mem_cons.mp hte with rfl | h
      · exact Or.inr (List.mem_cons_self _ _)
      · rcases ih h with h1 | h2
        · exact Or.inl h1
        · exact Or.inr (List.mem_cons_of_mem _ h2)

theorem mem_newestStep (acc : List (String × Newest)) (a : ApiModel)
    (te : String × Newest) (hte : te ∈ newestStep acc a) :
    te ∈ acc ∨ (parseModelType a.id = some te.fst ∧ te.snd = toNewest a) := by
  unfold newestStep at hte
  cases hpt : parseModelType a.id with
  | none =>
    simp only [hpt] at hte
    exact Or.inl hte
  | some t =>
    simp only [hpt] at hte
    cases hlo : acc.lookup t with
    | none =>
      simp only [hlo] at hte
      rcases mem_setAssoc acc t (toNewest a) te hte with rfl | h
      · exact Or.inr ⟨rfl, rfl⟩
      · exact Or.inl h
    | some cur =>
      simp only [hlo] at hte
      by_cases hgt : a.created_at > cur.created_at
      · rw [if_pos hgt] at hte
        rcases mem_setAssoc acc t (toNewest a) te hte with rfl | h
        · exact Or.inr ⟨rfl, rfl⟩
        · exact Or.inl h
      · rw [if_neg hgt] at hte
        exact Or.inl hte

theorem foldl_newestStep_entries (l : List ApiModel) :
    ∀ (acc : List (String × Newest)) (te : String × Newest),
      te ∈ l.foldl newestStep acc →
      te ∈ acc ∨ ∃ a ∈ l, parseModelType a.id = some te.fst ∧ te.snd = toNewest a := by
  induction l with
  | nil => intro acc te h; exact Or.inl h
  | cons a l ih =>
    intro acc te h
    rw [List.foldl_cons] at h
    rcases ih (newestStep acc a) te h with hacc | ⟨b, hb, hbp⟩
    · rcases mem_newestStep acc a te hacc with h1 | h2
      · exact Or.inl h1
      · exact Or.inr ⟨a, List.mem_cons_self _ _, h2⟩
    · exact Or.inr ⟨b, List.mem_cons_of_mem _ hb, hbp⟩

theorem newestByType_entry (api : List ApiModel) (te : String × Newest)
    (hte : te ∈ newestByType api) :
    parseModelType te.snd.id = some te.fst ∧ ∃ a ∈ api, a.id = te.snd.id := by
  rcases foldl_newestStep_entries api [] te hte with h | ⟨a, ha, hp, hn⟩
  · cases h
  · exact ⟨by rw [hn]; exact hp, ⟨a, ha, by rw [hn]; rfl⟩⟩

theorem clearTransform_fields (m : DbModel) :
    (clearTransform m).model_id = m.model_id ∧
    (clearTransform m).model_type = m.model_type := ⟨rfl, rfl⟩

theorem setTransform_fields (m : DbModel) (now : Nat) :
    (setTransform m now).model_id = m.model_id ∧
    (setTransform m now).model_type = m.model_type := ⟨rfl, rfl⟩

theorem depTransform_fields (m : DbModel) (now : Nat) :
    (depTransform m now).model_id = m.model_id ∧
    (depTransform m now).model_type = m.model_type := ⟨rfl, rfl⟩

theorem wf_clearCurrent (db : List DbModel) (t : String) (h : wfState db) :
    wfState (clearCurrent db t) := by
  constructor
  · show (idsOf (mapIf (fun m => m.model_type = t) clearTransform db)).Nodup
    rw [idsOf_mapIf _ clearTransform (fun m => rfl) db]
    exact h.1
  · exact typeConsistent_mapIf _ _ db h.2 (fun m => clearTransform_fields m)

theorem wf_setCurrent (db : List DbModel) (id : String) (now : Nat)
    (h : wfState db) : wfState (setCurrent db id now) := by
  constructor
  · show (idsOf (mapIf (fun m => m.model_id = id) (fun m => setTransform m now) db)).Nodup
    rw [idsOf_mapIf _ (fun m => setTransform m now) (fun m => rfl) db]
    exact h.1
  · exact typeConsistent_mapIf _ _ db h.2 (fun m => setTransform_fields m now)

theorem idsOf_deprecateLoop (now : Nat) (ids : List String) (db : List DbModel) :
    idsOf (deprecateLoop now db ids).state = idsOf db := by
  rw [deprecateLoop_state now ids db]
  show idsOf (mapIf (fun m => ids.contains m.model_id) (fun m => depTransform m now) db) = idsOf db
  exact idsOf_mapIf _ (fun m => depTransform m now) (fun m => rfl) db

theorem wf_deprecateLoop (now : Nat) (ids : List String) (db : List DbModel)
    (h : wfState db) : wfState (deprecateLoop now db ids).state := by
  rw [deprecateLoop_state now ids db]
  show wfState (mapIf (fun m => ids.contains m.model_id) (fun m => depTransform m now) db)
  constructor
  · show (idsOf (mapIf (fun m => ids.contains m.model_id) (fun m => depTransform m now) db)).Nodup
    rw [idsOf_mapIf _ (fun m => depTransform m now) (fun m => rfl) db]
    exact h.1
  · exact typeConsistent_mapIf _ _ db h.2 (fun m => depTransform_fields m now)

theorem currentFlagLoop_nil (snapshot : List DbModel) (now : Nat) (db : List DbModel) :
    currentFlagLoop snapshot now db [] = ⟨db, 0, []⟩ := rfl

theorem currentFlagLoop_cons (snapshot : List DbModel) (now : Nat) (db : List DbModel)
    (t0 : String) (e0 : Newest) (rest : List (String × Newest)) :
    currentFlagLoop snapshot now db ((t0, e0) :: rest) =
      if flagSkip snapshot t0 e0 then currentFlagLoop snapshot now db rest
      else
        ⟨(currentFlagLoop snapshot now (setCurrent (clearCurrent db t0) e0.id now) rest).state,
         (currentFlagLoop snapshot now (setCurrent (clearCurrent db t0) e0.id now) rest).count + 1,
         Change.current_model_changed e0.id t0
           ((snapshot.find? (fun m => m.model_type = t0 && m.is_current)).map
             (fun cm => cm.model_id)) ::
           (currentFlagLoop snapshot now (setCurrent (clearCurrent db t0) e0.id now) rest).changes⟩ :=
  rfl

theorem currents_deprecateLoop_le (t : String) (now : Nat) (ids : List String)
    (db : List DbModel) :
    (currents t (deprecateLoop now db ids).state).length ≤ (currents t db).length := by
  rw [deprecateLoop_state now ids db]
  show (currents t (mapIf (fun m => ids.contains m.model_id)
    (fun m => depTransform m now) db)).length ≤ _
  exact length_filter_mapIf_le _ _ _ db (fun m _ _ => by simp [depTransform])

theorem currentFlagLoop_wf_le (snapshot : List DbModel) (now : Nat) :
    ∀ (entries : List (String × Newest)) (db : List DbModel),
      wfState db →
      (∀ te ∈ entries, parseModelType te.snd.id = some te.fst) →
      wfState (currentFlagLoop snapshot now db entries).state ∧
      ∀ t, (currents t (currentFlagLoop snapshot now db entries).state).length ≤
        max (currents t db).length 1 := by
  intro entries
  induction entries with
  | nil =>
    intro db hwf _
    rw [currentFlagLoop_nil]
    exact ⟨hwf, fun t => le_max_left _ _⟩
  | cons te rest ih =>
    obtain ⟨t0, e0⟩ := te
    intro db hwf hparse
    have hp0 : parseModelType e0.id = some t0 := hparse (t0, e0) (List.mem_cons_self _ _)
    have hprest : ∀ te ∈ rest, parseModelType te.snd.id = some te.fst :=
      fun x hx => hparse x (List.mem_cons_of_mem _ hx)
    rw [currentFlagLoop_cons]
    by_cases hskip : flagSkip snapshot t0 e0 = true
    · rw [if_pos hskip]
      exact ih db hwf hprest
    · rw [if_neg hskip]
      have hwfc : wfState (clearCurrent db t0) := wf_clearCurrent db t0 hwf
      have hwf' : wfState (setCurrent (clearCurrent db t0) e0.id now) :=
        wf_setCurrent _ _ _ hwfc
      obtain ⟨hwfO, hleO⟩ := ih (setCurrent (clearCurrent db t0) e0.id now) hwf' hprest
      refine ⟨hwfO, fun t => ?_⟩
      by_cases ht : t = t0
      · subst ht
        have hform := currents_set_after_clear t e0.id now db hwf.2 hp0
        have hlen : (currents t (setCurrent (clearCurrent db t) e0.id now)).length ≤ 1 := by
          rw [hform, List.length_map]
          exact length_filter_id_le_one db e0.id hwf.1
        have h1 := hleO t
        have h2 : max (currents t (setCurrent (clearCurrent db t) e0.id now)).length 1 ≤ 1 :=
          Nat.max_le.mpr ⟨hlen, Nat.le_refl 1⟩
        exact le_trans (le_trans h1 h2) (le_max_right _ _)
      · have heq : currents t (setCurrent (clearCurrent db t0) e0.id now) = currents t db := by
          rw [currents_setCurrent_other t t0 e0.id now (clearCurrent db t0) hwfc.2 hp0 ht]
          exact currents_clearCurrent_other t t0 ht db
        have h1 := hleO t
        rw [heq] at h1
        exact h1

theorem syncRun_state (db : List DbModel) (api : List ApiModel) (now : Nat) :
    (syncRun db api now).state =
      (currentFlagLoop (sortById db) now
        ((deprecateLoop now
          (insertLoop now db
            (api.filter (fun m =>
              !((sortById db).map (fun m => m.model_id)).contains m.id))).state
          (((sortById db).filter (fun m =>
            !(api.map (fun m => m.id)).contains m.model_id && !m.is_deprecated)).map
            (fun m => m.model_id))).state)
        (newestByType api)).state := rfl

theorem currents_insert_phase (t : String) (now : Nat) (db : List DbModel)
    (l : List ApiModel) :
    currents t (insertLoop now db l).state = currents t db := by
  rw [insertLoop_state, currents_append, currents_newRecords, List.append_nil]

theorem idsOf_perm_sortById (db : List DbModel) :
    List.Perm ((sortById db).map (fun m => m.model_id)) (idsOf db) :=
  (List.perm_insertionSort _ db).map _

theorem wf_insert_phase (db : List DbModel) (api : List ApiModel) (now : Nat)
    (hwf : wfState db) (hapi : (api.map (fun a => a.id)).Nodup) :
    wfState (insertLoop now db
      (api.filter (fun m =>
        !((sortById db).map (fun m => m.model_id)).contains m.id))).state := by
  rw [insertLoop_state]
  constructor
  · show (idsOf (db ++ newRecords now _)).Nodup
    unfold idsOf
    rw [List.map_append, List.nodup_append]
    refine ⟨hwf.1, ?_, ?_⟩
    · have h1 := idsOf_newRecords_sublist now
        (api.filter (fun m =>
          !((sortById db).map (fun m => m.model_id)).contains m.id))
      have h2 : List.Sublist
          ((api.filter (fun m =>
            !((sortById db).map (fun m => m.model_id)).contains m.id)).map
              (fun a => a.id))
          (api.map (fun a => a.id)) :=
        (List.filter_sublist api).map _
      exact hapi.sublist (h1.trans h2)
    · intro x hx1 hx2
      have hx3 := (idsOf_newRecords_sublist now _).subset hx2
      obtain ⟨a, ha, rfl⟩ := List.mem_map.mp hx3
      have hfa := List.mem_filter.mp ha
      have hcont : ((sortById db).map (fun m => m.model_id)).contains a.id = true :=
        List.elem_iff.mpr ((idsOf_perm_sortById db).mem_iff.mpr hx1)
      rw [hcont] at hfa
      simpa using hfa.2
  · intro m hm
    rcases List.mem_append.mp hm with h | h
    · exact hwf.2 m h
    · obtain ⟨a, _, t, hpt, rfl⟩ := mem_newRecords _ _ _ h
      simpa [freshModel] using hpt

theorem syncRun_preserves (db : List DbModel) (api : List ApiModel) (now : Nat)
    (hwf : wfState db) (hinv : invAtMostOne db)
    (hapi : (api.map (fun a => a.id)).Nodup) :
    wfState (syncRun db api now).state ∧ invAtMostOne (syncRun db api now).state := by
  rw [syncRun_state]
  have hwf1 := wf_insert_phase db api now hwf hapi
  have hwf2 := wf_deprecateLoop now
    (((sortById db).filter (fun m =>
      !(api.map (fun m => m.id)).contains m.model_id && !m.is_deprecated)).map
      (fun m => m.model_id))
    (insertLoop now db
      (api.filter (fun m =>
        !((sortById db).map (fun m => m.model_id)).contains m.id))).state hwf1
  have hparse : ∀ te ∈ newestByType api, parseModelType te.snd.id = some te.fst :=
    fun te hte => (newestByType_entry api te hte).1
  obtain ⟨hwf3, hle3⟩ := currentFlagLoop_wf_le (sortById db) now (newestByType api) _ hwf2 hparse
  refine ⟨hwf3, fun t => ?_⟩
  have h3 := hle3 t
  have h2 := currents_deprecateLoop_le t now
    (((sortById db).filter (fun m =>
      !(api.map (fun m => m.id)).contains m.model_id && !m.is_deprecated)).map
      (fun m => m.model_id))
    (insertLoop now db
      (api.filter (fun m =>
        !((sortById db).map (fun m => m.model_id)).contains m.id))).state
  have h1 := currents_insert_phase t now db
    (api.filter (fun m =>
      !((sortById db).map (fun m => m.model_id)).contains m.id))
  rw [h1] at h2
  have hi := hinv t
  have hmax : max (currents t ((deprecateLoop now
      (insertLoop now db
        (api.filter (fun m =>
          !((sortById db).map (fun m => m.model_id)).contains m.id))).state
      (((sortById db).filter (fun m =>
        !(api.map (fun m => m.id)).contains m.model_id && !m.is_deprecated)).map
        (fun m => m.model_id))).state)).length 1 ≤ 1 :=
    Nat.max_le.mpr ⟨le_trans h2 hi, Nat.le_refl 1⟩
  exact le_trans h3 hmax

theorem syncHandler_error_models (st : SyncState) (msg : String) (now dur : Nat) :
    (syncHandler st (Except.error msg) now dur).fst.models = st.models := rfl

theorem syncHandler_ok_models (st : SyncState) (api : List ApiModel) (now dur : Nat) :
    (syncHandler st (Except.ok api) now dur).fst.models =
      (syncRun st.models api now).state := rfl

theorem applyRuns_preserves (runs : List (Except String (List ApiModel) × Nat × Nat)) :
    ∀ st : SyncState, wfState st.models → invAtMostOne st.models →
      (∀ r ∈ runs, ∀ api, r.fst = Except.ok api → (api.map (fun a => a.id)).Nodup) →
      wfState (applyRuns st runs).models ∧ invAtMostOne (applyRuns st runs).models := by
  induction runs with
  | nil => intro st hwf hinv _; exact ⟨hwf, hinv⟩
  | cons r rest ih =>
    intro st hwf hinv hruns
    unfold applyRuns
    have hrest : ∀ x ∈ rest, ∀ api, x.fst = Except.ok api →
        (api.map (fun a => a.id)).Nodup :=
      fun x hx => hruns x (List.mem_cons_of_mem _ hx)
    cases hr : r.fst with
    | error msg =>
      apply ih
      · rw [syncHandler_error_models]; exact hwf
      · rw [syncHandler_error_models]; exact hinv
      · exact hrest
    | ok api =>
      have hsync := syncRun_preserves st.models api r.snd.fst hwf hinv
        (hruns r (List.mem_cons_self _ _) api hr)
      apply ih
      · rw [syncHandler_ok_models]; exact hsync.1
      · rw [syncHandler_ok_models]; exact hsync.2
      · exact hrest

/-- C1: starting from a well-formed registry state satisfying the invariant
(globally unique model ids, each row's category derived from its id, and at
most one current record per category), any sequence of reconciliation runs —
successful or failed, each over an upstream snapshot with distinct ids,
executed one at a time — leaves at most one registry record with
`is_current = true` in every category. -/
theorem c1_at_most_one_current_per_category (st : SyncState)
    (runs : List (Except String (List ApiModel) × Nat × Nat))
    (hwf : wfState st.models) (hinv : invAtMostOne st.models)
    (hruns : ∀ r ∈ runs, ∀ api, r.fst = Except.ok api →
      (api.map (fun a => a.id)).Nodup) :
    ∀ t, (currents t (applyRuns st runs).models).length ≤ 1 :=
  (applyRuns_preserves runs st hwf hinv hruns).2

/-- Witness for C1: an empty registry reconciled once against two sonnet
models; the conjunct computed by `decide` checks the run really does leave
exactly one current sonnet record. -/
theorem c1_witness :
    (currents "sonnet"
      (applyRuns ⟨[], []⟩ [(Except.ok demoApi, 50, 7)]).models).length = 1 ∧
    ∀ t, (currents t (applyRuns ⟨[], []⟩ [(Except.ok demoApi, 50, 7)]).models).length ≤ 1 :=
  ⟨by decide,
    c1_at_most_one_current_per_category ⟨[], []⟩ [(Except.ok demoApi, 50, 7)]
      ⟨List.nodup_nil, fun m hm => absurd hm (List.not_mem_nil m)⟩
      (fun t => Nat.zero_le 1)
      (by
        intro r hr api hok
        rcases List.mem_cons.mp hr with rfl | h
        · cases hok
          decide
        · cases h)⟩

theorem eq_singleton_of_mem_of_length_le_one {l : List α} {x : α}
    (hx : x ∈ l) (hl : l.length ≤ 1) : l = [x] := by
  cases l with
  | nil => cases hx
  | cons a rest =>
    cases rest with
    | nil =>
      rcases List.mem_cons.mp hx with rfl | h
      · rfl
      · cases h
    | cons b rest2 => simp at hl

theorem keys_setAssoc (m : List (String × Newest)) (k : String) (x : Newest) :
    (setAssoc m k x).map Prod.fst =
      if k ∈ m.map Prod.fst then m.map Prod.fst else m.map Prod.fst ++ [k] := by
  induction m with
  | nil => simp [setAssoc]
  | cons e rest ih =>
    obtain ⟨ek, ev⟩ := e
    unfold setAssoc
    by_cases hk : ek = k
    · subst hk
      simp
    · rw [if_neg hk, List.map_cons, List.map_cons, ih]
      by_cases hmem : k ∈ rest.map Prod.fst
      · rw [if_pos hmem, if_pos (List.mem_cons_of_mem _ hmem)]
      · rw [if_neg hmem, if_neg (by
          intro hmem2
          rcases List.mem_cons.mp hmem2 with h | h
          · exact hk h.symm
          · exact hmem h)]
        rfl

theorem keys_nodup_setAssoc (m : List (String × Newest)) (k : String) (x : Newest)
    (h : (m.map Prod.fst).Nodup) : ((setAssoc m k x).map Prod.fst).Nodup := by
  rw [keys_setAssoc]
  by_cases hmem : k ∈ m.map Prod.fst
  · rwa [if_pos hmem]
  · rw [if_neg hmem, List.nodup_append]
    exact ⟨h, List.nodup_singleton k, fun a ha hb => hmem (List.mem_singleton.mp hb ▸ ha)⟩

theorem newestByType_keys_nodup (api : List ApiModel) :
    ((newestByType api).map Prod.fst).Nodup := by
  have : ∀ (l : List ApiModel) (acc : List (String × Newest)),
      (acc.map Prod.fst).Nodup → ((l.foldl newestStep acc).map Prod.fst).Nodup := by
    intro l
    induction l with
    | nil => intro acc h; exact h
    | cons a l ih =>
      intro acc h
      rw [List.foldl_cons]
      apply ih
      unfold newestStep
      cases hpt : parseModelType a.id with
      | none => exact h
      | some t =>
        simp only
        cases hlo : acc.lookup t with
        | none =>
          simp only [hlo]
          exact keys_nodup_setAssoc acc t _ h
        | some cur =>
          simp only [hlo]
          by_cases hgt : a.created_at > cur.created_at
          · rw [if_pos hgt]
            exact keys_nodup_setAssoc acc t _ h
          · rwa [if_neg hgt]
  exact this api [] List.nodup_nil

theorem flagSkip_true_iff (snapshot : List DbModel) (t : String) (newest : Newest) :
    flagSkip snapshot t newest = true ↔
      ∃ cm, snapshot.find? (fun m => m.model_type = t && m.is_current) = some cm ∧
        cm.model_id = newest.id := by
  unfold flagSkip
  cases hf : snapshot.find? (fun m => m.model_type = t && m.is_current) with
  | none => simp
  | some cm => simp

theorem insertLoop_noop (now : Nat) (l : List ApiModel)
    (h : ∀ a ∈ l, parseModelType a.id = none) :
    ∀ db : List DbModel, insertLoop now db l = ⟨db, 0, []⟩ := by
  induction l with
  | nil => intro db; rfl
  | cons a l ih =>
    intro db
    unfold insertLoop
    rw [h a (List.mem_cons_self _ _)]
    exact ih (fun x hx => h x (List.mem_cons_of_mem _ hx)) db

theorem flagLoop_all_skip (snapshot : List DbModel) (now : Nat)
    (entries : List (String × Newest))
    (h : ∀ te ∈ entries, flagSkip snapshot te.fst te.snd = true) :
    ∀ db : List DbModel, currentFlagLoop snapshot now db entries = ⟨db, 0, []⟩ := by
  induction entries with
  | nil => intro db; rfl
  | cons te rest ih =>
    intro db
    obtain ⟨t0, e0⟩ := te
    rw [currentFlagLoop_cons, if_pos (h (t0, e0) (List.mem_cons_self _ _))]
    exact ih (fun x hx => h x (List.mem_cons_of_mem _ hx)) db

theorem idsOf_flagLoop (snapshot : List DbModel) (now : Nat) :
    ∀ (entries : List (String × Newest)) (db : List DbModel),
      idsOf (currentFlagLoop snapshot now db entries).state = idsOf db := by
  intro entries
  induction entries with
  | nil => intro db; rfl
  | cons te rest ih =>
    obtain ⟨t0, e0⟩ := te
    intro db
    rw [currentFlagLoop_cons]
    by_cases hskip : flagSkip snapshot t0 e0 = true
    · rw [if_pos hskip]
      exact ih db
    · rw [if_neg hskip]
      show idsOf (currentFlagLoop snapshot now
        (setCurrent (clearCurrent db t0) e0.id now) rest).state = idsOf db
      rw [ih (setCurrent (clearCurrent db t0) e0.id now)]
      unfold setCurrent clearCurrent
      rw [idsOf_mapIf _ (fun m => setTransform m now) (fun m => rfl),
        idsOf_mapIf _ clearTransform (fun m => rfl)]

theorem flagLoop_preserves_other_currents (snapshot : List DbModel) (now : Nat) :
    ∀ (entries : List (String × Newest)) (db : List DbModel) (t : String),
      typeConsistent db →
      (∀ te ∈ entries, te.fst ≠ t ∧ parseModelType te.snd.id = some te.fst) →
      currents t (currentFlagLoop snapshot now db entries).state = currents t db := by
  intro entries
  induction entries with
  | nil => intro db t _ _; rfl
  | cons te rest ih =>
    obtain ⟨t0, e0⟩ := te
    intro db t hc hte
    obtain ⟨hne0, hp0⟩ := hte (t0, e0) (List.mem_cons_self _ _)
    have hrest := fun x hx => hte x (List.mem_cons_of_mem _ hx)
    rw [currentFlagLoop_cons]
    by_cases hskip : flagSkip snapshot t0 e0 = true
    · rw [if_pos hskip]
      exact ih db t hc hrest
    · rw [if_neg hskip]
      show currents t (currentFlagLoop snapshot now
        (setCurrent (clearCurrent db t0) e0.id now) rest).state = currents t db
      have hcc : typeConsistent (clearCurrent db t0) :=
        typeConsistent_mapIf _ _ db hc (fun m => clearTransform_fields m)
      have hcs : typeConsistent (setCurrent (clearCurrent db t0) e0.id now) :=
        typeConsistent_mapIf _ _ _ hcc (fun m => setTransform_fields m now)
      rw [ih (setCurrent (clearCurrent db t0) e0.id now) t hcs hrest,
        currents_setCurrent_other t t0 e0.id now (clearCurrent db t0) hcc hp0
          (fun h => hne0 h.symm),
        currents_clearCurrent_other t t0 (fun h => hne0 h.symm) db]

theorem currents_mem_iff (t : String) (db : List DbModel) (r : DbModel) :
    r ∈ currents t db ↔ r ∈ db ∧ r.model_type = t ∧ r.is_current = true := by
  unfold currents
  rw [List.mem_filter]
  simp

theorem flagLoop_establishes (snapshot : List DbModel) (now : Nat) :
    ∀ (entries : List (String × Newest)) (db : List DbModel),
      wfState db → invAtMostOne db →
      ((entries.map Prod.fst).Nodup) →
      (∀ te ∈ entries, te.snd.id ∈ idsOf db) →
      (∀ te ∈ entries, parseModelType te.snd.id = some te.fst) →
      (∀ te ∈ entries, flagSkip snapshot te.fst te.snd = true →
        ∃ r ∈ currents te.fst db, r.model_id = te.snd.id) →
      ∀ te ∈ entries,
        ∃ r, currents te.fst (currentFlagLoop snapshot now db entries).state = [r] ∧
          r.model_id = te.snd.id := by
  intro entries
  induction entries with
  | nil => intro db _ _ _ _ _ _ te hte; cases hte
  | cons hd rest ih =>
    obtain ⟨t0, e0⟩ := hd
    intro db hwf hinv hkeys hmemids hparse hskipH te hte
    rw [List.map_cons, List.nodup_cons] at hkeys
    have hp0 := hparse (t0, e0) (List.mem_cons_self _ _)
    have hrestne : ∀ x ∈ rest, x.fst ≠ t0 ∧ parseModelType x.snd.id = some x.fst :=
      fun x hx => ⟨fun he => hkeys.1 (List.mem_map.mpr ⟨x, hx, he⟩),
        hparse x (List.mem_cons_of_mem _ hx)⟩
    rw [currentFlagLoop_cons]
    by_cases hskip : flagSkip snapshot t0 e0 = true
    · rw [if_pos hskip]
      rcases List.mem_cons.mp hte with rfl | htr
      · obtain ⟨r, hrc, hrid⟩ := hskipH (t0, e0) (List.mem_cons_self _ _) hskip
        have hsing : currents t0 db = [r] :=
          eq_singleton_of_mem_of_length_le_one hrc (hinv t0)
        have hpres := flagLoop_preserves_other_currents snapshot now rest db t0 hwf.2
          hrestne
        exact ⟨r, by rw [hpres, hsing], hrid⟩
      · exact ih db hwf hinv hkeys.2
          (fun x hx => hmemids x (List.mem_cons_of_mem _ hx))
          (fun x hx => hparse x (List.mem_cons_of_mem _ hx))
          (fun x hx => hskipH x (List.mem_cons_of_mem _ hx)) te htr
    · rw [if_neg hskip]
      show ∃ r, currents te.fst (currentFlagLoop snapshot now
        (setCurrent (clearCurrent db t0) e0.id now) rest).state = [r] ∧
        r.model_id = te.snd.id
      have hwfc := wf_clearCurrent db t0 hwf
      have hwf' := wf_setCurrent _ e0.id now hwfc
      have hform := currents_set_after_clear t0 e0.id now db hwf.2 hp0
      have hid0 : e0.id ∈ idsOf db := hmemids (t0, e0) (List.mem_cons_self _ _)
      obtain ⟨r0, hr0f, hr0id, hr0mem⟩ := filter_id_singleton db e0.id hwf.1 hid0
      have hcur0 : currents t0 (setCurrent (clearCurrent db t0) e0.id now) =
          [setTransform r0 now] := by
        rw [hform, hr0f]
        rfl
      have hcureq : ∀ t, t ≠ t0 →
          currents t (setCurrent (clearCurrent db t0) e0.id now) = currents t db := by
        intro t ht
        rw [currents_setCurrent_other t t0 e0.id now _ hwfc.2 hp0 ht,
          currents_clearCurrent_other t t0 ht db]
      have hids' : idsOf (setCurrent (clearCurrent db t0) e0.id now) = idsOf db := by
        unfold setCurrent clearCurrent
        rw [idsOf_mapIf _ (fun m => setTransform m now) (fun m => rfl),
          idsOf_mapIf _ clearTransform (fun m => rfl)]
      have hinv' : invAtMostOne (setCurrent (clearCurrent db t0) e0.id now) := by
        intro t
        by_cases ht : t = t0
        · subst ht
          rw [hcur0]
          exact Nat.le_refl 1
        · rw [hcureq t ht]
          exact hinv t
      have hskipH' : ∀ x ∈ rest, flagSkip snapshot x.fst x.snd = true →
          ∃ r ∈ currents x.fst (setCurrent (clearCurrent db t0) e0.id now),
            r.model_id = x.snd.id := by
        intro x hx hs
        obtain ⟨r, hrc, hrid⟩ := hskipH x (List.mem_cons_of_mem _ hx) hs
        rw [hcureq x.fst (hrestne x hx).1]
        exact ⟨r, hrc, hrid⟩
      rcases List.mem_cons.mp hte with rfl | htr
      · have hpres := flagLoop_preserves_other_currents snapshot now rest
          (setCurrent (clearCurrent db t0) e0.id now) t0 hwf'.2 hrestne
        exact ⟨setTransform r0 now, by rw [hpres, hcur0], hr0id⟩
      · exact ih (setCurrent (clearCurrent db t0) e0.id now) hwf' hinv' hkeys.2
          (fun x hx => by rw [hids']; exact hmemids x (List.mem_cons_of_mem _ hx))
          (fun x hx => hparse x (List.mem_cons_of_mem _ hx)) hskipH' te htr

theorem mapIf_fields_origin (p : DbModel → Bool) (f : DbModel → DbModel)
    (db : List DbModel)
    (hf : ∀ m, (f m).model_id = m.model_id ∧ (f m).is_deprecated = m.is_deprecated) :
    ∀ r ∈ mapIf p f db,
      ∃ m ∈ db, r.model_id = m.model_id ∧ r.is_deprecated = m.is_deprecated := by
  intro r hr
  obtain ⟨m, hm, hor⟩ := mapIf_row_origin p f db r hr
  rcases hor with ⟨_, hfm⟩ | ⟨_, hfm⟩
  · rw [hfm]
    exact ⟨m, hm, (hf m).1, (hf m).2⟩
  · rw [hfm]
    exact ⟨m, hm, rfl, rfl⟩

theorem flagLoop_fields_origin (snapshot : List DbModel) (now : Nat) :
    ∀ (entries : List (String × Newest)) (db : List DbModel) (r : DbModel),
      r ∈ (currentFlagLoop snapshot now db entries).state →
      ∃ m ∈ db, r.model_id = m.model_id ∧ r.is_deprecated = m.is_deprecated := by
  intro entries
  induction entries with
  | nil => intro db r hr; exact ⟨r, hr, rfl, rfl⟩
  | cons hd rest ih =>
    obtain ⟨t0, e0⟩ := hd
    intro db r hr
    rw [currentFlagLoop_cons] at hr
    by_cases hskip : flagSkip snapshot t0 e0 = true
    · rw [if_pos hskip] at hr
      exact ih db r hr
    · rw [if_neg hskip] at hr
      obtain ⟨m1, hm1, h1, h2⟩ := ih (setCurrent (clearCurrent db t0) e0.id now) r hr
      obtain ⟨m2, hm2, h3, h4⟩ := mapIf_fields_origin _ (fun m => setTransform m now)
        (clearCurrent db t0) (fun m => ⟨rfl, rfl⟩) m1 hm1
      obtain ⟨m3, hm3, h5, h6⟩ := mapIf_fields_origin _ clearTransform
        db (fun m => ⟨rfl, rfl⟩) m2 hm2
      exact ⟨m3, hm3, by rw [h1, h3, h5], by rw [h2, h4, h6]⟩

theorem run1_covers_parseable (db : List DbModel) (api : List ApiModel) (now : Nat)
    (a : ApiModel) (ha : a ∈ api) (t : String)
    (hpt : parseModelType a.id = some t) :
    a.id ∈ idsOf (syncRun db api now).state := by
  rw [syncRun_state, idsOf_flagLoop, idsOf_deprecateLoop, insertLoop_state]
  unfold idsOf
  rw [List.map_append]
  by_cases hmem : a.id ∈ db.map (fun m => m.model_id)
  · exact List.mem_append_left _ hmem
  · apply List.mem_append_right
    have hnmem : ¬ a.id ∈ (sortById db).map (fun m => m.model_id) :=
      fun h => hmem ((idsOf_perm_sortById db).mem_iff.mp h)
    have hfilter : a ∈ api.filter (fun m =>
        !((sortById db).map (fun m => m.model_id)).contains m.id) := by
      rw [List.mem_filter]
      refine ⟨ha, ?_⟩
      have hcf : ((sortById db).map (fun m => m.model_id)).contains a.id = false := by
        cases hcc : ((sortById db).map (fun m => m.model_id)).contains a.id with
        | false => rfl
        | true => exact absurd (List.elem_iff.mp hcc) hnmem
      rw [hcf]
      rfl
    exact id_mem_newRecords now _ a hfilter t hpt

theorem run1_missing_deprecated (db : List DbModel) (api : List ApiModel) (now : Nat) :
    ∀ r ∈ (syncRun db api now).state,
      (api.map (fun m => m.id)).contains r.model_id = false →
      r.is_deprecated = true := by
  intro r hr hcont
  rw [syncRun_state] at hr
  obtain ⟨m2, hm2, hid2, hdep2⟩ := flagLoop_fields_origin _ _ _ _ r hr
  have hm2' : m2 ∈ mapIf
      (fun x => (((sortById db).filter (fun y =>
        !(api.map (fun z => z.id)).contains y.model_id && !y.is_deprecated)).map
        (fun y => y.model_id)).contains x.model_id)
      (fun x => depTransform x now)
      (insertLoop now db (api.filter (fun y =>
        !((sortById db).map (fun z => z.model_id)).contains y.id))).state := by
    rw [deprecateLoop_state] at hm2
    exact hm2
  obtain ⟨m1, hm1, hor⟩ := mapIf_row_origin _ _ _ m2 hm2'
  rcases hor with ⟨_, hfm⟩ | ⟨hp, hfm⟩
  · rw [hdep2, hfm]
    rfl
  · rw [hfm] at hid2 hdep2
    have hp' : (((sortById db).filter (fun y =>
        !(api.map (fun z => z.id)).contains y.model_id && !y.is_deprecated)).map
        (fun y => y.model_id)).contains m1.model_id = false := hp
    rw [insertLoop_state] at hm1
    rcases List.mem_append.mp hm1 with hdb | hnew
    · by_cases hdep : m1.is_deprecated = true
      · rw [hdep2]
        exact hdep
      · exfalso
        have hcontm : (api.map (fun m => m.id)).contains m1.model_id = false := by
          rw [← hid2]
          exact hcont
        have hmemdep : m1.model_id ∈ ((sortById db).filter (fun y =>
            !(api.map (fun z => z.id)).contains y.model_id && !y.is_deprecated)).map
            (fun y => y.model_id) := by
          apply List.mem_map.mpr
          refine ⟨m1, List.mem_filter.mpr
            ⟨(List.perm_insertionSort _ db).mem_iff.mpr hdb, ?_⟩, rfl⟩
          rw [hcontm]
          simp [hdep]
        have h2 : (((sortById db).filter (fun y =>
            !(api.map (fun z => z.id)).contains y.model_id && !y.is_deprecated)).map
            (fun y => y.model_id)).contains m1.model_id = true :=
          List.elem_iff.mpr hmemdep
        rw [hp'] at h2
        cases h2
    · exfalso
      obtain ⟨a, haF, u, hptA, hfr⟩ := mem_newRecords _ _ _ hnew
      have haapi : a ∈ api := (List.mem_filter.mp haF).1
      have hamem : a.id ∈ api.map (fun m => m.id) := List.mem_map.mpr ⟨a, haapi, rfl⟩
      have h3 : (api.map (fun m => m.id)).contains a.id = true :=
        List.elem_iff.mpr hamem
      have hfid : m1.model_id = a.id := by rw [hfr]; rfl
      rw [hid2, hfid] at hcont
      rw [hcont] at h3
      cases h3

theorem syncRun_establishes (db : List DbModel) (api : List ApiModel) (now : Nat)
    (hwf : wfState db) (hinv : invAtMostOne db)
    (hapi : (api.map (fun a => a.id)).Nodup) :
    ∀ te ∈ newestByType api,
      ∃ r, currents te.fst (syncRun db api now).state = [r] ∧
        r.model_id = te.snd.id := by
  have hwf1 := wf_insert_phase db api now hwf hapi
  have hwf2 := wf_deprecateLoop now
    (((sortById db).filter (fun m =>
      !(api.map (fun m => m.id)).contains m.model_id && !m.is_deprecated)).map
      (fun m => m.model_id))
    (insertLoop now db
      (api.filter (fun m =>
        !((sortById db).map (fun m => m.model_id)).contains m.id))).state hwf1
  have hinv2 : invAtMostOne ((deprecateLoop now
      (insertLoop now db
        (api.filter (fun m =>
          !((sortById db).map (fun m => m.model_id)).contains m.id))).state
      (((sortById db).filter (fun m =>
        !(api.map (fun m => m.id)).contains m.model_id && !m.is_deprecated)).map
        (fun m => m.model_id))).state) := by
    intro t
    refine le_trans (currents_deprecateLoop_le t now _ _) ?_
    rw [currents_insert_phase]
    exact hinv t
  intro te hte
  obtain ⟨hparse_te, a0, ha0, ha0id⟩ := newestByType_entry api te hte
  rw [syncRun_state]
  apply flagLoop_establishes (sortById db) now (newestByType api) _ hwf2 hinv2
    (newestByType_keys_nodup api) ?_ ?_ ?_ te hte
  · intro x hx
    obtain ⟨hpx, ax, hax, haxid⟩ := newestByType_entry api x hx
    have hcov := run1_covers_parseable db api now ax hax x.fst (by rw [haxid]; exact hpx)
    rw [syncRun_state, idsOf_flagLoop] at hcov
    rw [← haxid]
    exact hcov
  · intro x hx
    exact (newestByType_entry api x hx).1
  · intro x hx hskip
    obtain ⟨hpx, ax, hax, haxid⟩ := newestByType_entry api x hx
    obtain ⟨cm, hfind, hcmid⟩ := (flagSkip_true_iff (sortById db) x.fst x.snd).mp hskip
    have hcmq := List.find?_some hfind
    have hcmmem : cm ∈ db :=
      (List.perm_insertionSort _ db).mem_iff.mp (List.mem_of_find?_eq_some hfind)
    have hcmtype : cm.model_type = x.fst ∧ cm.is_current = true := by
      simpa using hcmq
    have hcmapi : cm.model_id ∈ api.map (fun m => m.id) := by
      rw [hcmid, ← haxid]
      exact List.mem_map.mpr ⟨ax, hax, rfl⟩
    have hcm1 : cm ∈ (insertLoop now db
        (api.filter (fun m =>
          !((sortById db).map (fun m => m.model_id)).contains m.id))).state := by
      rw [insertLoop_state]
      exact List.mem_append_left _ hcmmem
    have hnotdep : (((sortById db).filter (fun m =>
        !(api.map (fun m => m.id)).contains m.model_id && !m.is_deprecated)).map
        (fun m => m.model_id)).contains cm.model_id = false := by
      cases hcc : (((sortById db).filter (fun m =>
          !(api.map (fun m => m.id)).contains m.model_id && !m.is_deprecated)).map
          (fun m => m.model_id)).contains cm.model_id with
      | false => rfl
      | true =>
        exfalso
        obtain ⟨y, hyF, hyid⟩ := List.mem_map.mp (List.elem_iff.mp hcc)
        have hycond := (List.mem_filter.mp hyF).2
        have hyapi : (api.map (fun m => m.id)).contains y.model_id = true := by
          rw [hyid]
          exact List.elem_iff.mpr hcmapi
        rw [hyapi] at hycond
        simp at hycond
    have hcm2 : cm ∈ (deprecateLoop now
        (insertLoop now db
          (api.filter (fun m =>
            !((sortById db).map (fun m => m.model_id)).contains m.id))).state
        (((sortById db).filter (fun m =>
          !(api.map (fun m => m.id)).contains m.model_id && !m.is_deprecated)).map
          (fun m => m.model_id))).state := by
      rw [deprecateLoop_state]
      exact mem_mapIf_of_not_p _ _ _ cm hcm1 hnotdep
    exact ⟨cm, (currents_mem_iff _ _ _).mpr ⟨hcm2, hcmtype.1, hcmtype.2⟩, hcmid⟩

theorem run2_flagSkip (db : List DbModel) (api : List ApiModel) (now1 : Nat)
    (hwf : wfState db) (hinv : invAtMostOne db)
    (hapi : (api.map (fun a => a.id)).Nodup) :
    ∀ te ∈ newestByType api,
      flagSkip (sortById (syncRun db api now1).state) te.fst te.snd = true := by
  intro te hte
  obtain ⟨r, hcurr, hid⟩ := syncRun_establishes db api now1 hwf hinv hapi te hte
  rw [flagSkip_true_iff]
  have hperm : List.Perm
      (currents te.fst (sortById (syncRun db api now1).state))
      (currents te.fst (syncRun db api now1).state) :=
    (List.perm_insertionSort _ _).filter _
  rw [hcurr] at hperm
  have hsing := List.perm_singleton.mp hperm
  exact ⟨r, find?_of_filter_eq_singleton hsing, hid⟩

theorem syncRun_eq (db : List DbModel) (api : List ApiModel) (now : Nat) :
    syncRun db api now =
      { state := (currentFlagLoop (sortById db) now
          ((deprecateLoop now
            (insertLoop now db
              (api.filter (fun m =>
                !((sortById db).map (fun m => m.model_id)).contains m.id))).state
            (((sortById db).filter (fun m =>
              !(api.map (fun m => m.id)).contains m.model_id && !m.is_deprecated)).map
              (fun m => m.model_id))).state)
          (newestByType api)).state
        added := (insertLoop now db
          (api.filter (fun m =>
            !((sortById db).map (fun m => m.model_id)).contains m.id))).count
        deprecated := (deprecateLoop now
          (insertLoop now db
            (api.filter (fun m =>
              !((sortById db).map (fun m => m.model_id)).contains m.id))).state
          (((sortById db).filter (fun m =>
            !(api.map (fun m => m.id)).contains m.model_id && !m.is_deprecated)).map
            (fun m => m.model_id))).count
        updated := (currentFlagLoop (sortById db) now
          ((deprecateLoop now
            (insertLoop now db
              (api.filter (fun m =>
                !((sortById db).map (fun m => m.model_id)).contains m.id))).state
            (((sortById db).filter (fun m =>
              !(api.map (fun m => m.id)).contains m.model_id && !m.is_deprecated)).map
              (fun m => m.model_id))).state)
          (newestByType api)).count
        changes := (insertLoop now db
            (api.filter (fun m =>
              !((sortById db).map (fun m => m.model_id)).contains m.id))).changes ++
          (deprecateLoop now
            (insertLoop now db
              (api.filter (fun m =>
                !((sortById db).map (fun m => m.model_id)).contains m.id))).state
            (((sortById db).filter (fun m =>
              !(api.map (fun m => m.id)).contains m.model_id && !m.is_deprecated)).map
              (fun m => m.model_id))).changes ++
          (currentFlagLoop (sortById db) now
            ((deprecateLoop now
              (insertLoop now db
                (api.filter (fun m =>
                  !((sortById db).map (fun m => m.model_id)).contains m.id))).state
              (((sortById db).filter (fun m =>
                !(api.map (fun m => m.id)).contains m.model_id && !m.is_deprecated)).map
                (fun m => m.model_id))).state)
            (newestByType api)).changes } := rfl

theorem run2_newModels_unparseable (db : List DbModel) (api : List ApiModel)
    (now1 : Nat) :
    ∀ a ∈ api.filter (fun m =>
      !((sortById (syncRun db api now1).state).map (fun m => m.model_id)).contains m.id),
      parseModelType a.id = none := by
  intro a haF
  obtain ⟨ha, hcond⟩ := List.mem_filter.mp haF
  cases hpt : parseModelType a.id with
  | none => rfl
  | some t =>
    exfalso
    have hcov := run1_covers_parseable db api now1 a ha t hpt
    have hmem : a.id ∈ (sortById (syncRun db api now1).state).map (fun m => m.model_id) :=
      (idsOf_perm_sortById _).mem_iff.mpr hcov
    have hc2 : ((sortById (syncRun db api now1).state).map
        (fun m => m.model_id)).contains a.id = true :=
      List.elem_iff.mpr hmem
    rw [hc2] at hcond
    simp at hcond

theorem run2_depFilter_nil (db : List DbModel) (api : List ApiModel) (now1 : Nat) :
    (sortById (syncRun db api now1).state).filter (fun m =>
      !(api.map (fun m => m.id)).contains m.model_id && !m.is_deprecated) = [] := by
  rw [List.filter_eq_nil_iff]
  intro m hm
  have hmem : m ∈ (syncRun db api now1).state :=
    (List.perm_insertionSort _ _).mem_iff.mp hm
  cases hcc : (api.map (fun m => m.id)).contains m.model_id with
  | true => simp [hcc]
  | false =>
    have hdep := run1_missing_deprecated db api now1 m hmem hcc
    simp [hcc, hdep]

theorem syncRun_idempotent (db : List DbModel) (api : List ApiModel)
    (now1 now2 : Nat)
    (hwf : wfState db) (hinv : invAtMostOne db)
    (hapi : (api.map (fun a => a.id)).Nodup) :
    syncRun (syncRun db api now1).state api now2 =
      ⟨(syncRun db api now1).state, 0, 0, 0, []⟩ := by
  have hIns : insertLoop now2 (syncRun db api now1).state
      (api.filter (fun m =>
        !((sortById (syncRun db api now1).state).map (fun m => m.model_id)).contains m.id)) =
      ⟨(syncRun db api now1).state, 0, []⟩ :=
    insertLoop_noop now2 _ (run2_newModels_unparseable db api now1) _
  have hDepF := run2_depFilter_nil db api now1
  have hSkips := run2_flagSkip db api now1 hwf hinv hapi
  have hFlag := flagLoop_all_skip (sortById (syncRun db api now1).state) now2
    (newestByType api) hSkips (syncRun db api now1).state
  rw [syncRun_eq (syncRun db api now1).state api now2, hIns, hDepF]
  simp only [List.map_nil]
  have hDep : deprecateLoop now2
      ((⟨(syncRun db api now1).state, 0, []⟩ : LoopOut).state) ([] : List String) =
      ⟨(syncRun db api now1).state, 0, []⟩ := rfl
  rw [hDep, hFlag]
  rfl

theorem syncHandler_ok_result (st : SyncState) (api : List ApiModel) (now dur : Nat) :
    (syncHandler st (Except.ok api) now dur).snd =
      { success := true, modelsFound := api.length,
        modelsAdded := (syncRun st.models api now).added,
        modelsUpdated := (syncRun st.models api now).updated,
        modelsDeprecated := (syncRun st.models api now).deprecated,
        changes := (syncRun st.models api now).changes, errorMessage := none } := rfl

theorem syncHandler_ok_logs (st : SyncState) (api : List ApiModel) (now dur : Nat) :
    (syncHandler st (Except.ok api) now dur).fst.logs =
      st.logs ++
        [{ models_found := api.length,
           models_added := (syncRun st.models api now).added,
           models_updated := (syncRun st.models api now).updated,
           models_deprecated := (syncRun st.models api now).deprecated,
           success := true, error_message := none, duration_ms := dur,
           changes := some (syncRun st.models api now).changes,
           triggered_by := "cron" }] := rfl

/-- C2: running the reconciler a second time with the same upstream catalog
snapshot, over the registry state left by the first run (which started from a
well-formed state satisfying the invariant), produces zero further changes:
no inserts, no deprecations, no current-flag updates, an unchanged registry,
and a second log row whose change list is empty. -/
theorem c2_second_run_is_noop (st0 : SyncState) (api : List ApiModel)
    (now1 dur1 now2 dur2 : Nat)
    (hwf : wfState st0.models) (hinv : invAtMostOne st0.models)
    (hapi : (api.map (fun a => a.id)).Nodup) :
    (syncHandler (syncHandler st0 (Except.ok api) now1 dur1).fst
        (Except.ok api) now2 dur2).snd.modelsAdded = 0 ∧
    (syncHandler (syncHandler st0 (Except.ok api) now1 dur1).fst
        (Except.ok api) now2 dur2).snd.modelsDeprecated = 0 ∧
    (syncHandler (syncHandler st0 (Except.ok api) now1 dur1).fst
        (Except.ok api) now2 dur2).snd.modelsUpdated = 0 ∧
    (syncHandler (syncHandler st0 (Except.ok api) now1 dur1).fst
        (Except.ok api) now2 dur2).snd.changes = [] ∧
    (syncHandler (syncHandler st0 (Except.ok api) now1 dur1).fst
        (Except.ok api) now2 dur2).fst.models =
      (syncHandler st0 (Except.ok api) now1 dur1).fst.models ∧
    (syncHandler (syncHandler st0 (Except.ok api) now1 dur1).fst
        (Except.ok api) now2 dur2).fst.logs =
      (syncHandler st0 (Except.ok api) now1 dur1).fst.logs ++
        [{ models_found := api.length, models_added := 0, models_updated := 0,
           models_deprecated := 0, success := true, error_message := none,
           duration_ms := dur2, changes := some [], triggered_by := "cron" }] := by
  have hidem : syncRun (syncHandler st0 (Except.ok api) now1 dur1).fst.models api now2 =
      ⟨(syncRun st0.models api now1).state, 0, 0, 0, []⟩ := by
    rw [syncHandler_ok_models]
    exact syncRun_idempotent st0.models api now1 now2 hwf hinv hapi
  refine ⟨?_, ?_, ?_, ?_, ?_, ?_⟩
  · rw [syncHandler_ok_result, hidem]
  · rw [syncHandler_ok_result, hidem]
  · rw [syncHandler_ok_result, hidem]
  · rw [syncHandler_ok_result, hidem]
  · rw [syncHandler_ok_models, hidem, syncHandler_ok_models]
  · rw [syncHandler_ok_logs, hidem]

/-- Witness for C2: the empty registry reconciled twice against the two-model
snapshot; the first conjunct checks by evaluation that the first run did make
changes, so the second run's emptiness is not vacuous. -/
theorem c2_witness :
    (syncHandler ⟨[], []⟩ (Except.ok demoApi) 50 7).snd.modelsAdded = 2 ∧
    ((syncHandler (syncHandler ⟨[], []⟩ (Except.ok demoApi) 50 7).fst
        (Except.ok demoApi) 60 8).snd.modelsAdded = 0 ∧
      (syncHandler (syncHandler ⟨[], []⟩ (Except.ok demoApi) 50 7).fst
          (Except.ok demoApi) 60 8).snd.modelsDeprecated = 0 ∧
      (syncHandler (syncHandler ⟨[], []⟩ (Except.ok demoApi) 50 7).fst
          (Except.ok demoApi) 60 8).snd.modelsUpdated = 0 ∧
      (syncHandler (syncHandler ⟨[], []⟩ (Except.ok demoApi) 50 7).fst
          (Except.ok demoApi) 60 8).snd.changes = [] ∧
      (syncHandler (syncHandler ⟨[], []⟩ (Except.ok demoApi) 50 7).fst
          (Except.ok demoApi) 60 8).fst.models =
        (syncHandler ⟨[], []⟩ (Except.ok demoApi) 50 7).fst.models ∧
      (syncHandler (syncHandler ⟨[], []⟩ (Except.ok demoApi) 50 7).fst
          (Except.ok demoApi) 60 8).fst.logs =
        (syncHandler ⟨[], []⟩ (Except.ok demoApi) 50 7).fst.logs ++
          [{ models_found := demoApi.length, models_added := 0, models_updated := 0,
             models_deprecated := 0, success := true, error_message := none,
             duration_ms := 8, changes := some [], triggered_by := "cron" }]) :=
  ⟨by decide,
    c2_second_run_is_noop ⟨[], []⟩ demoApi 50 7 60 8
      ⟨List.nodup_nil, fun m hm => absurd hm (List.not_mem_nil m)⟩
      (fun t => Nat.zero_le 1) (by decide)⟩

end Models
